import Mathlib

/-!
# Verification of the Well-Architected Interviewer document core

Shallow embedding of `wai.py` (field codec, question-block parser,
status reconciliation, identity resolution, tracker sync), with the
claims of the specification settled as theorems.

Text is modelled at the line level: a document or block is a list of
lines, each line a list of characters (no `'\n'` inside a line).  The
Python regexes used by the source are all `MULTILINE` line-anchored
patterns, so their action is a per-line action, which is what the
definitions below implement.
-/

namespace WAI

/-- One line of text (a Python string without an embedded newline). -/
abbrev Line := List Char

/-- A block / document: its list of lines. -/
abbrev Block := List Line

/-- `begins p l`: line `l` starts with the literal pattern `p`
(Python `str.startswith`, or an anchored literal regex match). -/
def begins : List Char → List Char → Bool
  | [], _ => true
  | _ :: _, [] => false
  | p :: ps, c :: cs => p == c && begins ps cs

/-- Characters treated as whitespace by Python's `str.strip()` and the
regex class `\s` (ASCII whitespace plus NEL and NBSP). -/
def isSpaceChar (c : Char) : Bool :=
  c == ' ' || c == '\t' || c == '\n' || c == '\r' || c == '\x0b' ||
  c == '\x0c' || c == '\u0085' || c == '\u00A0'

/-- Python `str.strip()`: drop whitespace from both ends. -/
def pyStrip (l : List Char) : List Char :=
  ((l.dropWhile isSpaceChar).reverse.dropWhile isSpaceChar).reverse

/-- Python `str.rstrip()`: drop trailing whitespace. -/
def pyRstrip (l : List Char) : List Char :=
  (l.reverse.dropWhile isSpaceChar).reverse

/-- Generic `begins` for arbitrary element types (used for runs of lines). -/
def runBegins {α : Type} [DecidableEq α] : List α → List α → Bool
  | [], _ => true
  | _ :: _, [] => false
  | p :: ps, c :: cs => decide (p = c) && runBegins ps cs

theorem length_dropWhile_le {α : Type} (p : α → Bool) (l : List α) :
    (l.dropWhile p).length ≤ l.length := by
  induction l with
  | nil => simp [List.dropWhile]
  | cons c cs ih =>
    rw [List.dropWhile]
    cases h : p c with
    | false => simp
    | true =>
      simp only []
      have := Nat.le_succ_of_le ih
      simpa using this

/-- Helper for `listReplace`: replace every non-overlapping occurrence
of the non-empty pattern `pat` by `rep`, scanning left to right (the
semantics of Python `str.replace` for a non-empty pattern).  The first
argument counts elements still to be skipped because they belong to an
occurrence that has just been replaced. -/
def listReplaceAux {α : Type} [DecidableEq α] (pat rep : List α) :
    Nat → List α → List α
  | _ + 1, [] => []
  | n + 1, _ :: cs => listReplaceAux pat rep n cs
  | 0, [] => []
  | 0, c :: cs =>
    if runBegins pat (c :: cs) then rep ++ listReplaceAux pat rep (pat.length - 1) cs
    else c :: listReplaceAux pat rep 0 cs

/-- Python `s.replace(pat, rep)`: all non-overlapping occurrences,
left to right.  An empty pattern inserts `rep` around every element,
as Python does. -/
def listReplace {α : Type} [DecidableEq α] (s pat rep : List α) : List α :=
  match pat with
  | [] => rep ++ s.flatMap (fun c => c :: rep)
  | p :: ps => listReplaceAux (p :: ps) rep 0 s

/-! ## Field names and enumerations of `wai.py` -/

def questionF : Line := "Question".data
def statusF : Line := "Status".data
def confidenceF : Line := "Confidence".data
def answerF : Line := "Answer".data
def evidenceF : Line := "Evidence".data
def hqF : Line := "Human Questions".data
def kanbusF : Line := "Kanbus Task".data
def luF : Line := "Last Updated".data

def answeredS : Line := "answered".data
def partialS : Line := "partial".data
def needsHumanS : Line := "needs_human".data
def unansweredS : Line := "unanswered".data

/-- `STATUS_VALUES` -/
def statusValues : List Line :=
  ["unanswered".data, "partial".data, "answered".data, "needs_human".data]

/-- `CONFIDENCE_VALUES` -/
def confidenceValues : List Line :=
  ["low".data, "medium".data, "high".data, "n/a".data]

/-- The fixed text of the auto-generated human-questions prompt
(`"Please describe how your team addresses:"`), used both to build the
prompt and to recognise a previously generated one. -/
def promptPfx : Line := "Please describe how your team addresses:".data

/-! ## Field codec (`_parse_field`, `_replace_field`) -/

/-- `_parse_field(block, field)`: the regex
`^<field>:[ \t]*(.*)$` (MULTILINE) takes the first line beginning with
`"<field>:"`; the result is the remainder of that line, stripped.
Returns `[]` (empty string) when the field line is absent. -/
def parseField (b : Block) (field : Line) : Line :=
  match b.find? (fun l => begins (field ++ [':']) l) with
  | some l => pyStrip (l.drop (field.length + 1))
  | none => []

/-- The per-line action of `_replace_field`: a line matching
`^<field>:.*$` is rewritten to `"<field>: <value>"`, any other line is
kept. -/
def lineRepl (field value : Line) (l : Line) : Line :=
  if begins (field ++ [':']) l then field ++ ':' :: ' ' :: value else l

/-- `_replace_field(block, field, value)`: if some line matches
`^<field>:.*$`, rewrite every matching line to `"<field>: <value>"`
(`re.sub` replaces all matches); otherwise return the block unchanged. -/
def replaceField (b : Block) (field value : Line) : Block :=
  if b.any (fun l => begins (field ++ [':']) l) then b.map (lineRepl field value) else b

/-! ## Text normalisation (`_normalize_text`, `_short_title`) -/

/-- The character substitution `text.replace(NBSP, " ").replace("Â", " ")`. -/
def nbChar (c : Char) : Char :=
  if c = '\u00A0' then ' ' else if c = 'Â' then ' ' else c

def nbFixLine (l : Line) : Line := l.map nbChar

/-- The trailing `block.replace(" ", " ").replace("Â", " ")` of
`cmd_apply_evidence`, acting on every line. -/
def nbFixAll (b : Block) : Block := b.map nbFixLine

/-- `re.sub(r"\s+", " ", s)`: collapse every maximal whitespace run to
a single space.  A whitespace character followed by more whitespace is
dropped; the single `' '` is emitted at the last character of the
run. -/
def collapseWs : List Char → List Char
  | [] => []
  | [c] => if isSpaceChar c then [' '] else [c]
  | c :: d :: rest =>
    if isSpaceChar c then
      if isSpaceChar d then collapseWs (d :: rest)
      else ' ' :: collapseWs (d :: rest)
    else c :: collapseWs (d :: rest)

/-- `re.sub(r"\s+", " ", raw).strip()` (used on the answer file text in
`cmd_record_answer`). -/
def collapseStrip (raw : List Char) : List Char := pyStrip (collapseWs raw)

/-- `_normalize_text` -/
def normalizeText (s : List Char) : List Char := pyStrip (collapseWs (nbFixLine s))

/-- `_short_title` -/
def shortTitle (question : List Char) : List Char :=
  let t := pyStrip question
  if 80 < t.length then pyRstrip (t.take 77) ++ "...".data else t

/-! ## Heading patterns of `cmd_apply_evidence` -/

/-- Does `^##\s+[^:]+:.*$` match the line?  After `"##"` the line must
start with a whitespace character, and the first `':'` of the remainder
must sit at index `≥ 2` (leaving at least one character for `[^:]+`
after a one-character `\s+`). -/
def hdrPatMatch (l : Line) : Bool :=
  match l with
  | c1 :: c2 :: r =>
    c1 == '#' && c2 == '#' &&
    (match r with
     | [] => false
     | c :: _ => isSpaceChar c) &&
    (let k := r.findIdx (fun x => x == ':')
     decide (k < r.length) && decide (2 ≤ k))
  | _ => false

/-- The per-line action of
`re.sub(r"^##\s+[^:]+:.*$", f"## {id}: {title}", block, flags=MULTILINE)`. -/
def hdrSubLine (idv title : Line) (l : Line) : Line :=
  if hdrPatMatch l then "## ".data ++ idv ++ ": ".data ++ title else l

/-- The per-line action of
`re.sub(r"^##\s+([^:]+):\s+", r"## \1: ", block, flags=MULTILINE)`:
normalise the spacing of a heading line.  `\s+` is greedy, so it takes
the whole leading whitespace run unless `[^:]+` (which stops at the
first `':'`) would be left empty; the matched span ends with the
maximal whitespace run after the `':'`. -/
def hdrNormLine (l : Line) : Line :=
  match l with
  | c1 :: c2 :: r =>
    let ws := (r.takeWhile isSpaceChar).length
    let k := r.findIdx (fun x => x == ':')
    if (c1 == '#' && c2 == '#' && decide (1 ≤ ws) && decide (2 ≤ k) &&
        decide (k < r.length) &&
        (match r.drop (k + 1) with
         | c :: _ => isSpaceChar c
         | [] => false)) then
      let w := min ws (k - 1)
      "## ".data ++ ((r.drop w).take (k - w)) ++ ": ".data ++
        ((r.drop (k + 1)).dropWhile isSpaceChar)
    else l
  | _ => l

/-! ## Document parsing (`_parse_questions_from_report`,
`_parse_question_block`) -/

/-- A line beginning `"## "`: the `content.find("\n## ", ...)` block
terminator. -/
def isHashLine (l : Line) : Bool := begins "## ".data l

/-- Does the line match the record-marker pattern
`^## (?P<id>[^:]+): (?P<title>.*)$`?  The id part is the non-empty
run before the first `':'` of the remainder, which must be followed by
a space. -/
def isMarkerLine (l : Line) : Bool :=
  begins "## ".data l &&
    (let r := l.drop 3
     let k := r.findIdx (fun x => x == ':')
     decide (1 ≤ k) && decide (k + 1 < r.length) && (r.getD (k + 1) 'x' == ' '))

/-- Single pass of the block splitter: `cur` holds the lines of the
currently open block in reverse order (`[]` = no block open).  A
marker line opens a block, any `"## "` line closes the open block,
any other line extends the open block or is skipped. -/
def splitBlocksGo (cur : Block) : Block → List Block
  | [] => if cur = [] then [] else [cur.reverse]
  | l :: ls =>
    if isHashLine l then
      (if cur = [] then [] else [cur.reverse]) ++
        (if isMarkerLine l then splitBlocksGo [l] ls else splitBlocksGo [] ls)
    else
      if cur = [] then splitBlocksGo [] ls else splitBlocksGo (l :: cur) ls

/-- The block extents of `_parse_questions_from_report`: each marker
line opens a block that runs to (but excludes) the next `"## "` line,
or to the end of the document; lines outside every block are skipped. -/
def splitBlocks (doc : Block) : List Block := splitBlocksGo [] doc

/-- One parsed question record (`_parse_question_block` result). -/
structure Entry where
  id : Line
  title : Line
  question : Line
  status : Line
  confidence : Line
  kanbus : Line
  block : Block
deriving DecidableEq

/-- `s.split(sep, 1)`: split at the first occurrence of `sep`
(`none` when `sep` does not occur). -/
def splitOnce (sep : List Char) : List Char → Option (List Char × List Char)
  | [] => none
  | c :: cs =>
    if begins sep (c :: cs) then some ([], (c :: cs).drop sep.length)
    else
      match splitOnce sep cs with
      | some (a, b) => some (c :: a, b)
      | none => none

/-- `_parse_question_block`: split the heading line after `"## "` at the
first `": "` into id and title (both stripped), and read the fixed
fields with `_parse_field`.  `none` models the `ValueError` Python
raises when the heading has no `": "`. -/
def parseQuestionBlock (b : Block) : Option Entry :=
  match b with
  | [] => none
  | header :: _ =>
    match splitOnce ": ".data (header.drop 3) with
    | none => none
    | some (q, t) =>
      some { id := pyStrip q, title := pyStrip t,
             question := parseField b questionF,
             status := parseField b statusF,
             confidence := parseField b confidenceF,
             kanbus := parseField b kanbusF,
             block := b }

/-- `_parse_questions_from_report` -/
def parseQuestionsFromReport (doc : Block) : List Entry :=
  (splitBlocks doc).filterMap parseQuestionBlock

/-! ## Status reconciliation (`cmd_apply_evidence`, per entry) -/

/-- Lines 533–539 of `wai.py`: the reconciled status of one entry.
`current_status = entry.get("status") or "unanswered"`; a non-empty
answer forces `answered`; a stale `answered` without answer text
degrades to `partial` (evidence available) or `needs_human`. -/
def reconcileStatus (summary : Line) (e : Entry) : Line :=
  let current := if e.status = [] then unansweredS else e.status
  if parseField e.block answerF ≠ [] then answeredS
  else if current = answeredS then
    (if summary ≠ [] then partialS else needsHumanS)
  else current

/-- Lines 542–543 of `wai.py`: rewrite `Status` to `answered` when the
reconciled status is `answered`. -/
def aeStatusAnswered (current : Line) (b : Block) : Block :=
  if current = answeredS then replaceField b statusF answeredS else b

/-- Lines 544–548 of `wai.py`: rewrite `Status` to `partial` (evidence
available) or `needs_human` when the reconciled status is not
`answered`. -/
def aeStatusOther (current summary : Line) (b : Block) : Block :=
  if current ≠ answeredS then
    (if summary ≠ [] then replaceField b statusF partialS
     else replaceField b statusF needsHumanS)
  else b

/-- Lines 549–556 of `wai.py`: populate `Human Questions` with the
templated prompt, only when the status is not `answered` and the field
is empty or holds a previously generated prompt. -/
def aeHumanQuestions (questionText current : Line) (b : Block) : Block :=
  if questionText ≠ [] ∧ current ≠ answeredS then
    (let ehq := parseField b hqF
     if ehq = [] ∨ begins promptPfx ehq then
       replaceField b hqF (promptPfx ++ ' ' :: questionText)
     else b)
  else b

/-- Lines 557–565 of `wai.py`: rewrite the `Question` field and the
heading line from the normalised question text. -/
def aeQuestionHeading (questionText idv : Line) (b : Block) : Block :=
  if questionText ≠ [] then
    (replaceField b questionF questionText).map (hdrSubLine idv (shortTitle questionText))
  else b

/-- The body of the per-entry loop of `cmd_apply_evidence` (lines
531–567 of `wai.py`): the rewritten block for one entry given the
evidence summary (empty list = no summary). -/
def applyEvidenceEntry (summary : Line) (e : Entry) : Block :=
  let questionText := normalizeText (if e.question ≠ [] then e.question else e.title)
  let current := reconcileStatus summary e
  nbFixAll ((aeQuestionHeading questionText e.id
      (aeHumanQuestions questionText current
        (aeStatusOther current summary
          (aeStatusAnswered current
            (replaceField e.block evidenceF summary))))).map hdrNormLine)

theorem aeStatusAnswered_shape (cur : Line) (b : Block) :
    aeStatusAnswered cur b = b ∨
      ∃ v, aeStatusAnswered cur b = replaceField b statusF v := by
  unfold aeStatusAnswered
  split
  · exact Or.inr ⟨_, rfl⟩
  · exact Or.inl rfl

theorem aeStatusOther_shape (cur summary : Line) (b : Block) :
    aeStatusOther cur summary b = b ∨
      ∃ v, aeStatusOther cur summary b = replaceField b statusF v := by
  unfold aeStatusOther
  split
  · split
    · exact Or.inr ⟨_, rfl⟩
    · exact Or.inr ⟨_, rfl⟩
  · exact Or.inl rfl

theorem aeHumanQuestions_shape (qt cur : Line) (b : Block) :
    aeHumanQuestions qt cur b = b ∨
      ∃ v, aeHumanQuestions qt cur b = replaceField b hqF v := by
  simp only [aeHumanQuestions]
  split
  · split
    · exact Or.inr ⟨_, rfl⟩
    · exact Or.inl rfl
  · exact Or.inl rfl

theorem aeQuestionHeading_shape (qt idv : Line) (b : Block) :
    aeQuestionHeading qt idv b = b ∨
      ∃ v i t, aeQuestionHeading qt idv b
        = (replaceField b questionF v).map (hdrSubLine i t) := by
  unfold aeQuestionHeading
  split
  · exact Or.inr ⟨_, _, _, rfl⟩
  · exact Or.inl rfl

/-- `applyEvidenceEntry` with its two `let`s expanded. -/
theorem applyEvidenceEntry_def (summary : Line) (e : Entry) :
    applyEvidenceEntry summary e
      = nbFixAll ((aeQuestionHeading
          (normalizeText (if e.question ≠ [] then e.question else e.title)) e.id
          (aeHumanQuestions
            (normalizeText (if e.question ≠ [] then e.question else e.title))
            (reconcileStatus summary e)
            (aeStatusOther (reconcileStatus summary e) summary
              (aeStatusAnswered (reconcileStatus summary e)
                (replaceField e.block evidenceF summary))))).map hdrNormLine) := rfl

/-! ## Answer recording (`cmd_record_answer`) -/

/-- The per-line action of
`re.sub(r"^Answer:.*$", f"Answer: {answer_text}", block, flags=MULTILINE)`. -/
def ansSubLine (answer : Line) (l : Line) : Line :=
  if begins (answerF ++ [':']) l then answerF ++ ':' :: ' ' :: answer else l

/-- Lines 607–612 of `wai.py`: the rewritten block for a matching entry
of `cmd_record_answer` (`now` is the current UTC timestamp text). -/
def recordAnswerBlock (status confidence answerText now : Line) (b : Block) : Block :=
  let b1 := replaceField b statusF status
  let b2 := replaceField b1 confidenceF confidence
  let b3 := b2.map (ansSubLine answerText)
  replaceField b3 luF now

/-- The per-pillar loop body of `cmd_record_answer`: fold over the
parsed entries, replacing the block of every entry whose id equals
`qid` (via `new_content.replace(block, block_new)`), and report whether
any entry matched. -/
def recordAnswerDoc (qid status confidence answerText now : Line) (doc : Block) :
    Block × Bool :=
  (parseQuestionsFromReport doc).foldl
    (fun acc e =>
      if e.id = qid then
        (listReplace acc.1 e.block (recordAnswerBlock status confidence answerText now e.block),
         true)
      else acc)
    (doc, false)

/-- `cmd_record_answer` over the existing pillar documents: the final
documents plus the `updated` flag.  `updated = false` is the case in
which the command raises `"Question ID not found in reports"`. -/
def recordAnswer (qid status confidence answerText now : Line) (docs : List Block) :
    List Block × Bool :=
  docs.foldl
    (fun acc doc =>
      let r := recordAnswerDoc qid status confidence answerText now doc
      (acc.1 ++ [r.1], acc.2 || r.2))
    ([], false)

/-! ## Validation (`cmd_validate`, per pillar document) -/

/-- One step of the per-entry loop of `cmd_validate`: the fold state is
`(errors so far, ids seen so far)`. -/
def validateStep (pillar : Line) (acc : List Line × List Line) (e : Entry) :
    List Line × List Line :=
  let e1 :=
    if acc.2.contains e.id then
      acc.1 ++ ["duplicate question id ".data ++ e.id ++ " in ".data ++ pillar]
    else acc.1
  let e2 :=
    if e.status ≠ [] ∧ ¬ statusValues.contains e.status then
      e1 ++ ["invalid status ".data ++ e.status ++ " in ".data ++ e.id]
    else e1
  let e3 :=
    if e.confidence ≠ [] ∧ ¬ confidenceValues.contains e.confidence then
      e2 ++ ["invalid confidence ".data ++ e.confidence ++ " in ".data ++ e.id]
    else e2
  (e3, acc.2 ++ [e.id])

/-- The per-pillar loop of `cmd_validate`: the error messages this
document contributes (duplicate ids, out-of-enum status or
confidence). -/
def validateDoc (pillar : Line) (doc : Block) : List Line :=
  ((parseQuestionsFromReport doc).foldl (validateStep pillar) ([], [])).1

/-! ## Identity resolution (`_is_full_id`, `_resolve_full_id`) -/

/-- One entity of the tracker snapshot (`kanbus console snapshot`).
Missing JSON attributes are modelled as the empty string, which is how
the source treats them after `i.get(..., "")` / `or ""`. -/
structure Issue where
  id : Line
  title : Line
  parent : Line
  created_at : Line
deriving DecidableEq

/-- `_is_full_id`: at least five hyphens. -/
def isFullId (issueId : Line) : Bool :=
  5 ≤ (issueId.filter (fun c => c == '-')).length

/-- Stable ascending insertion by `created_at` (the behaviour of
Python's stable `list.sort(key=lambda i: i.get("created_at") or "")`). -/
def insertByCreated (x : Issue) : List Issue → List Issue
  | [] => [x]
  | y :: ys =>
    if x.created_at ≤ y.created_at then x :: y :: ys
    else y :: insertByCreated x ys

/-- Stable sort by `created_at`. -/
def sortByCreated : List Issue → List Issue
  | [] => []
  | x :: xs => insertByCreated x (sortByCreated xs)

/-- A dummy issue for `getLastD` (never used on a non-empty list). -/
def noIssue : Issue := ⟨[], [], [], []⟩

/-- The candidate filters of `_resolve_full_id`: id begins with the
short id, then exact title (when a title is given), then exact parent
(when a parent is given). -/
def resolveCandidates (shortId title parent : Line) (issues : List Issue) : List Issue :=
  let c1 := issues.filter (fun i => begins shortId i.id)
  let c2 := if title ≠ [] then c1.filter (fun i => i.title = title) else c1
  if parent ≠ [] then c2.filter (fun i => i.parent = parent) else c2

/-- `_resolve_full_id(short_id, title, parent, issues)` with the
snapshot given (the `issues is None` branch performs I/O and is only
taken by callers that did not already fetch the snapshot; every use
modelled here passes `issues`): no candidate → the input id; several →
the last of the stable ascending sort by creation timestamp. -/
def resolveFullId (shortId title parent : Line) (issues : List Issue) : Line :=
  if isFullId shortId then shortId
  else if resolveCandidates shortId title parent issues = [] then shortId
  else ((sortByCreated (resolveCandidates shortId title parent issues)).getLastD noIssue).id

/-! ## Tracker sync (`cmd_sync_kanbus`, `_kanbus_update_status`) -/

/-- One attempted external tracker call. -/
inductive SyncCall where
  | comment (issueId text : Line)
  | update (issueId status : Line)
deriving DecidableEq

/-- The external tracker's behaviour: for each attempted call, `none`
means success and `some msg` means the CLI fails with message `msg`
(a raised `WAIError`). -/
structure SyncEnv where
  commentErr : Line → Line → Option Line
  updateErr : Line → Line → Option Line

/-- Does `pat` occur inside `l` (Python `pat in msg`)? -/
def containsSub (pat l : Line) : Bool :=
  match l with
  | [] => begins pat []
  | _ :: cs => begins pat l || containsSub pat cs

/-- The failure message fragment `_kanbus_update_status` forgives. -/
def noUpdatesMsg : Line := "no updates requested".data

/-- `_kanbus_comment`: attempt the call; a failure propagates. -/
def kanbusComment (env : SyncEnv) (tr : List SyncCall) (issueId text : Line) :
    List SyncCall × Option Line :=
  (tr ++ [.comment issueId text], env.commentErr issueId text)

/-- `_kanbus_update_status`: attempt the call; a failure whose message
contains `"no updates requested"` is swallowed, any other failure
propagates. -/
def kanbusUpdateStatus (env : SyncEnv) (tr : List SyncCall) (issueId status : Line) :
    List SyncCall × Option Line :=
  let tr' := tr ++ [.update issueId status]
  match env.updateErr issueId status with
  | none => (tr', none)
  | some msg => if containsSub noUpdatesMsg msg then (tr', none) else (tr', some msg)

/-- The calls one record triggers: the answer comment (when an answer
is present), then the status transition; a propagated comment failure
skips the transition. -/
def syncEntryCalls (env : SyncEnv) (tid answer status : Line)
    (tr : List SyncCall) : List SyncCall × Option Line :=
  match (if answer ≠ [] then kanbusComment env tr tid ("Answer:\n".data ++ answer)
         else (tr, none)) with
  | (tr1, some msg) => (tr1, some msg)
  | (tr1, none) =>
    if status = answeredS then kanbusUpdateStatus env tr1 tid "closed".data
    else if status = needsHumanS then kanbusUpdateStatus env tr1 tid "blocked".data
    else (tr1, none)

/-- The per-entry body of the first loop of `cmd_sync_kanbus`. -/
def syncEntry (env : SyncEnv) (issues : List Issue) (tasks : List (Line × Line))
    (tr : List SyncCall) (e : Entry) : List SyncCall × Option Line :=
  match (tasks.find? (fun p => p.1 == e.id)).map Prod.snd with
  | none => (tr, none)
  | some taskId =>
    if taskId = [] then (tr, none)
    else syncEntryCalls env (resolveFullId taskId [] [] issues)
      (parseField e.block answerF) e.status tr

/-- Run the per-entry loop over a list of entries, aborting on the
first propagated failure (the raised `WAIError` leaves
`cmd_sync_kanbus`). -/
def syncEntries (env : SyncEnv) (issues : List Issue) (tasks : List (Line × Line))
    (tr : List SyncCall) : List Entry → List SyncCall × Option Line
  | [] => (tr, none)
  | e :: es =>
    match syncEntry env issues tasks tr e with
    | (tr', none) => syncEntries env issues tasks tr' es
    | (tr', some msg) => (tr', some msg)

/-- The first loop of `cmd_sync_kanbus` over the existing pillar
documents. -/
def syncDocs (env : SyncEnv) (issues : List Issue) (tasks : List (Line × Line))
    (tr : List SyncCall) : List Block → List SyncCall × Option Line
  | [] => (tr, none)
  | doc :: rest =>
    match syncEntries env issues tasks tr (parseQuestionsFromReport doc) with
    | (tr', none) => syncDocs env issues tasks tr' rest
    | (tr', some msg) => (tr', some msg)

/-- The epic-closing loop of `cmd_sync_kanbus`: for each pillar with an
epic id and an existing document, close the epic when every entry is
`answered`. -/
def syncEpics (env : SyncEnv) (issues : List Issue) (docs : List (Line × Block))
    (tr : List SyncCall) : List (Line × Line) → List SyncCall × Option Line
  | [] => (tr, none)
  | (pillar, epicId) :: rest =>
    let eid := resolveFullId epicId [] [] issues
    match (docs.find? (fun p => p.1 == pillar)).map Prod.snd with
    | none => syncEpics env issues docs tr rest
    | some doc =>
      if (parseQuestionsFromReport doc).all (fun e => e.status == answeredS) then
        match kanbusUpdateStatus env tr eid "closed".data with
        | (tr', none) => syncEpics env issues docs tr' rest
        | (tr', some msg) => (tr', some msg)
      else syncEpics env issues docs tr rest

/-- `cmd_sync_kanbus`: process every record of every existing pillar
document, then the epic aggregation; `docs` is the association list of
existing pillar documents in `PILLARS` order, `tasks` and `epics` come
from `kanbus-map.json`.  The result is the list of attempted external
calls and `some msg` when the run was aborted by a propagated tracker
failure. -/
def syncKanbus (env : SyncEnv) (issues : List Issue) (tasks : List (Line × Line))
    (epics : List (Line × Line)) (docs : List (Line × Block)) :
    List SyncCall × Option Line :=
  match syncDocs env issues tasks [] (docs.map Prod.snd) with
  | (tr, none) => syncEpics env issues docs tr epics
  | (tr, some msg) => (tr, some msg)

/-! ## Toolkit lemmas about `begins`, `find?` and the line actions -/

theorem begins_refl (p : List Char) : begins p p = true := by
  induction p with
  | nil => rfl
  | cons a as ih => simp [begins, ih]

theorem begins_append_left {p q : List Char} (s : List Char) (h : p.length ≤ q.length) :
    begins p (q ++ s) = begins p q := by
  induction p generalizing q with
  | nil => simp [begins]
  | cons a as ih =>
    cases q with
    | nil => simp at h
    | cons b bs =>
      simp only [List.cons_append, begins, List.append_eq]
      rw [ih]
      simpa using h

/-- A successful `begins` exposes the pattern as a literal head. -/
theorem begins_iff_append {p l : List Char} :
    begins p l = true ↔ ∃ t, l = p ++ t := by
  induction p generalizing l with
  | nil => simp [begins]
  | cons a as ih =>
    cases l with
    | nil => simp [begins]
    | cons c cs =>
      simp only [begins, Bool.and_eq_true, beq_iff_eq, ih]
      constructor
      · rintro ⟨rfl, t, rfl⟩
        exact ⟨t, rfl⟩
      · rintro ⟨t, ht⟩
        cases ht
        exact ⟨rfl, t, rfl⟩

theorem begins_ne_headD {p l : List Char} (hp : p ≠ []) (hl : l ≠ [])
    (h : p.headD ' ' ≠ l.headD ' ') : begins p l = false := by
  cases p with
  | nil => exact absurd rfl hp
  | cons a as =>
    cases l with
    | nil => exact absurd rfl hl
    | cons c cs =>
      simp only [List.headD_cons] at h
      simp [begins, h]

theorem begins_false_of_begins {p q l : List Char} (hp : p ≠ []) (hq : q ≠ [])
    (hpq : p.headD ' ' ≠ q.headD ' ') (h : begins q l = true) :
    begins p l = false := by
  cases q with
  | nil => exact absurd rfl hq
  | cons b bs =>
    cases l with
    | nil => simp [begins] at h
    | cons c cs =>
      simp only [begins, Bool.and_eq_true, beq_iff_eq] at h
      apply begins_ne_headD hp (by simp)
      simp only [List.headD_cons]
      simpa [h.1] using hpq

theorem headD_append_cons (f : List Char) (c : Char) (rest : List Char) :
    (f ++ c :: rest).headD ' ' = f.headD c := by
  cases f <;> simp

theorem begins_canonical (f v : Line) :
    begins (f ++ [':']) (f ++ ':' :: ' ' :: v) = true := by
  have h : f ++ ':' :: ' ' :: v = (f ++ [':']) ++ ' ' :: v := by simp
  rw [h, begins_append_left _ (le_refl _), begins_refl]

theorem drop_canonical (f v : Line) :
    (f ++ ':' :: ' ' :: v).drop (f.length + 1) = ' ' :: v := by
  have h : f ++ ':' :: ' ' :: v = (f ++ [':']) ++ ' ' :: v := by simp
  have hl : (f ++ [':']).length = f.length + 1 := by simp
  rw [h, ← hl, List.drop_left]

theorem pyStrip_cons_space (v : Line) : pyStrip (' ' :: v) = pyStrip v := by
  simp [pyStrip, List.dropWhile, isSpaceChar]

/-- Track the first `p`-line through a per-line map: lines that do not
satisfy `p` must not start satisfying it, and we only need to know the
image of the found line itself. -/
theorem find?_map_first {F : Line → Line} {p : Line → Bool} {b : Block} {x : Line}
    (h2 : ∀ l ∈ b, p l = false → p (F l) = false)
    (hx : b.find? p = some x) (hFx : p (F x) = true) :
    (b.map F).find? p = some (F x) := by
  induction b with
  | nil => simp at hx
  | cons y ys ih =>
    cases hy : p y with
    | true =>
      rw [List.find?_cons_of_pos _ hy] at hx
      cases hx
      rw [List.map_cons, List.find?_cons_of_pos _ hFx]
    | false =>
      rw [List.find?_cons_of_neg _ (by simp [hy])] at hx
      rw [List.map_cons,
        List.find?_cons_of_neg _ (by simp [h2 y (by simp) hy])]
      exact ih (fun l hl => h2 l (by simp [hl])) hx

theorem find?_map_none {F : Line → Line} {p : Line → Bool} {b : Block}
    (h2 : ∀ l ∈ b, p l = false → p (F l) = false)
    (hx : b.find? p = none) : (b.map F).find? p = none := by
  rw [List.find?_eq_none] at hx ⊢
  intro l hl
  rcases List.mem_map.mp hl with ⟨a, ha, rfl⟩
  simp [h2 a ha (by simpa using hx a ha)]

theorem map_fix {F : Line → Line} {b : Block} (h : ∀ l ∈ b, F l = l) :
    b.map F = b := by
  rw [List.map_congr_left (g := id) h, List.map_id]

theorem replaceField_eq_map (b : Block) (f v : Line) :
    replaceField b f v = b.map (lineRepl f v) := by
  unfold replaceField
  cases h : b.any (fun l => begins (f ++ [':']) l) with
  | true => simp
  | false =>
    rw [List.any_eq_false] at h
    simp only [Bool.false_eq_true, if_false]
    symm
    apply map_fix
    intro l hl
    have : begins (f ++ [':']) l = false := by simpa using h l hl
    simp [lineRepl, this]

theorem lineRepl_fix {f v l : Line} (h : begins (f ++ [':']) l = false) :
    lineRepl f v l = l := by
  simp [lineRepl, h]

theorem lineRepl_out (f v l : Line) :
    lineRepl f v l = l ∨ lineRepl f v l = f ++ ':' :: ' ' :: v := by
  unfold lineRepl
  by_cases h : begins (f ++ [':']) l = true
  · exact Or.inr (by simp [h])
  · exact Or.inl (by simp [h])

/-- The canonical line written by `lineRepl f v` is not a `g`-field
line when `f` and `g` have different leading characters. -/
theorem begins_canonical_ne {g f v : Line} (hfg : g.headD ':' ≠ f.headD ':') :
    begins (g ++ [':']) (f ++ ':' :: ' ' :: v) = false := by
  apply begins_ne_headD (by simp) (by cases f <;> simp)
  rw [headD_append_cons, headD_append_cons]
  exact hfg

/-- Heads of the patterns of two fields with different leading
characters differ. -/
theorem field_head_ne {g f : Line} (hfg : g.headD ':' ≠ f.headD ':') :
    (g ++ [':']).headD ' ' ≠ (f ++ [':']).headD ' ' := by
  rw [headD_append_cons, headD_append_cons]
  exact hfg

/-- `replaceField f` does not move the first `g`-line when `f` and `g`
start with different characters. -/
theorem find?_replaceField_other {b : Block} {f v g x : Line}
    (hfg : g.headD ':' ≠ f.headD ':')
    (hx : b.find? (fun l => begins (g ++ [':']) l) = some x) :
    (replaceField b f v).find? (fun l => begins (g ++ [':']) l) = some x := by
  rw [replaceField_eq_map]
  have hpx : begins (g ++ [':']) x = true := List.find?_some hx
  have hfix : lineRepl f v x = x := by
    apply lineRepl_fix
    exact begins_false_of_begins (by simp) (by simp)
      (Ne.symm (field_head_ne hfg)) hpx
  have h2 : ∀ l ∈ b, begins (g ++ [':']) l = false →
      begins (g ++ [':']) (lineRepl f v l) = false := by
    intro l _ hl
    rcases lineRepl_out f v l with h | h
    · rw [h]; exact hl
    · rw [h]; exact begins_canonical_ne hfg
  have := find?_map_first h2 hx (by rw [hfix]; exact hpx)
  rwa [hfix] at this

/-- `replaceField f v` rewrites the first `f`-line to the canonical
`"<f>: <v>"` line. -/
theorem find?_replaceField_self {b : Block} {f v x : Line}
    (hx : b.find? (fun l => begins (f ++ [':']) l) = some x) :
    (replaceField b f v).find? (fun l => begins (f ++ [':']) l)
      = some (f ++ ':' :: ' ' :: v) := by
  rw [replaceField_eq_map]
  have hpx : begins (f ++ [':']) x = true := List.find?_some hx
  have h2 : ∀ l ∈ b, begins (f ++ [':']) l = false →
      begins (f ++ [':']) (lineRepl f v l) = false := by
    intro l _ hl
    rw [lineRepl_fix hl]
    exact hl
  have hFx : lineRepl f v x = f ++ ':' :: ' ' :: v := by
    simp [lineRepl, hpx]
  have := find?_map_first h2 hx (by rw [hFx]; exact begins_canonical f v)
  rwa [hFx] at this

theorem begins_head_eq {p l : List Char} (hp : p ≠ []) (h : begins p l = true) :
    l ≠ [] ∧ l.headD ' ' = p.headD ' ' := by
  cases p with
  | nil => exact absurd rfl hp
  | cons a as =>
    cases l with
    | nil => simp [begins] at h
    | cons c cs =>
      simp only [begins, Bool.and_eq_true, beq_iff_eq] at h
      exact ⟨by simp, by simp [h.1]⟩

theorem hdrPatMatch_false_of_head {c : Char} {cs : List Char} (hc : c ≠ '#') :
    hdrPatMatch (c :: cs) = false := by
  cases cs with
  | nil => rfl
  | cons c2 r => simp [hdrPatMatch, hc]

/-- `hdrSubLine` leaves every `g`-field line alone when `g` does not
start with `'#'`. -/
theorem hdrSubLine_fix {g idv t l : Line} (hg : g.headD ':' ≠ '#')
    (h : begins (g ++ [':']) l = true) : hdrSubLine idv t l = l := by
  obtain ⟨hl, hhead⟩ := begins_head_eq (by simp) h
  cases l with
  | nil => exact absurd rfl hl
  | cons c cs =>
    have hc : c ≠ '#' := by
      simp only [List.headD_cons] at hhead
      rw [hhead, headD_append_cons]
      exact hg
    simp [hdrSubLine, hdrPatMatch_false_of_head hc]

theorem hdrSubLine_out (idv t l : Line) :
    hdrSubLine idv t l = l ∨ ∃ r, hdrSubLine idv t l = '#' :: '#' :: ' ' :: r := by
  unfold hdrSubLine
  by_cases h : hdrPatMatch l = true
  · exact Or.inr ⟨idv ++ ": ".data ++ t, by simp [h]⟩
  · exact Or.inl (by simp [h])

theorem hdrSubLine_begins_false {g idv t l : Line} (hg : g.headD ':' ≠ '#')
    (h : begins (g ++ [':']) l = false) :
    begins (g ++ [':']) (hdrSubLine idv t l) = false := by
  rcases hdrSubLine_out idv t l with h' | ⟨r, h'⟩
  · rw [h']; exact h
  · rw [h']
    apply begins_ne_headD (by simp) (by simp)
    rw [headD_append_cons]
    simpa using hg

theorem hdrNormLine_fix {g l : Line} (hg : g.headD ':' ≠ '#')
    (h : begins (g ++ [':']) l = true) : hdrNormLine l = l := by
  obtain ⟨hl, hhead⟩ := begins_head_eq (by simp) h
  cases l with
  | nil => exact absurd rfl hl
  | cons c cs =>
    have hc : c ≠ '#' := by
      simp only [List.headD_cons] at hhead
      rw [hhead, headD_append_cons]
      exact hg
    cases cs with
    | nil => rfl
    | cons c2 r => simp [hdrNormLine, hc]

theorem hdrNormLine_out (l : Line) :
    hdrNormLine l = l ∨ ∃ r, hdrNormLine l = '#' :: '#' :: ' ' :: r := by
  unfold hdrNormLine
  cases l with
  | nil => exact Or.inl rfl
  | cons c cs =>
    cases cs with
    | nil => exact Or.inl rfl
    | cons c2 r =>
      dsimp only
      split
      · exact Or.inr ⟨_, rfl⟩
      · exact Or.inl rfl

theorem hdrNormLine_begins_false {g l : Line} (hg : g.headD ':' ≠ '#')
    (h : begins (g ++ [':']) l = false) :
    begins (g ++ [':']) (hdrNormLine l) = false := by
  rcases hdrNormLine_out l with h' | ⟨r, h'⟩
  · rw [h']; exact h
  · rw [h']
    apply begins_ne_headD (by simp) (by simp)
    rw [headD_append_cons]
    simpa using hg

theorem nbChar_or (c : Char) : nbChar c = c ∨ nbChar c = ' ' := by
  unfold nbChar
  by_cases h1 : c = '\u00A0'
  · simp [h1]
  · by_cases h2 : c = 'Â' <;> simp [h1, h2]

theorem nbFixLine_id {l : Line} (h : ∀ c ∈ l, c ≠ '\u00A0' ∧ c ≠ 'Â') :
    nbFixLine l = l := by
  unfold nbFixLine
  rw [List.map_congr_left (g := id) ?_, List.map_id]
  intro c hc
  simp only [id]
  unfold nbChar
  simp [(h c hc).1, (h c hc).2]

/-- A pattern containing no space character cannot appear at the head
of a line through the NBSP fixing alone. -/
theorem begins_nbFixLine {p l : List Char} (hsp : ∀ c ∈ p, c ≠ ' ')
    (h : begins p (nbFixLine l) = true) : begins p l = true := by
  induction p generalizing l with
  | nil => rfl
  | cons a as ih =>
    cases l with
    | nil => simp [nbFixLine, begins] at h
    | cons c cs =>
      simp only [nbFixLine, List.map_cons, begins, Bool.and_eq_true, beq_iff_eq] at h
      obtain ⟨rfl, h2⟩ := h
      have hac : nbChar c = c := by
        rcases nbChar_or c with h' | h'
        · exact h'
        · exact absurd h' (hsp (nbChar c) (by simp))
      rw [begins, hac]
      simp only [beq_self_eq_true, Bool.true_and]
      exact ih (fun x hx => hsp x (by simp [hx])) h2

theorem begins_nbFixLine_false {p l : List Char} (hsp : ∀ c ∈ p, c ≠ ' ')
    (h : begins p l = false) : begins p (nbFixLine l) = false := by
  cases h' : begins p (nbFixLine l) with
  | false => rfl
  | true => rw [begins_nbFixLine hsp h'] at h; exact absurd h (by simp)

theorem parseField_of_find? {b : Block} {f x : Line}
    (hx : b.find? (fun l => begins (f ++ [':']) l) = some x) :
    parseField b f = pyStrip (x.drop (f.length + 1)) := by
  unfold parseField
  rw [hx]

theorem parseField_of_find?_none {b : Block} {f : Line}
    (hx : b.find? (fun l => begins (f ++ [':']) l) = none) :
    parseField b f = [] := by
  unfold parseField
  rw [hx]

/-- `_parse_field` reads back the value just written by
`_replace_field` (stripped, as the parser strips). -/
theorem parseField_replaceField {b : Block} {f : Line} (v : Line)
    (hex : ∃ l ∈ b, begins (f ++ [':']) l = true) :
    parseField (replaceField b f v) f = pyStrip v := by
  obtain ⟨x, hx⟩ : ∃ x, b.find? (fun l => begins (f ++ [':']) l) = some x := by
    rcases hex with ⟨l, hl, hpl⟩
    exact Option.isSome_iff_exists.mp (List.find?_isSome.mpr ⟨l, hl, hpl⟩)
  rw [parseField_of_find? (find?_replaceField_self hx), drop_canonical, pyStrip_cons_space]


/-- After the `Status` field has been set to `answered`, the remaining
stages of `cmd_apply_evidence` (question/heading rewrite, heading
normalisation, NBSP fixing) leave the parsed `Status` value at
`answered`. -/
theorem parseField_status_after (qt idv : Line) (b : Block)
    (hb : b.find? (fun l => begins (statusF ++ [':']) l)
        = some (statusF ++ ':' :: ' ' :: answeredS)) :
    parseField (nbFixAll ((aeQuestionHeading qt idv b).map hdrNormLine)) statusF
      = answeredS := by
  have hcan : begins (statusF ++ [':']) (statusF ++ ':' :: ' ' :: answeredS) = true :=
    begins_canonical _ _
  have hb5 : (aeQuestionHeading qt idv b).find? (fun l => begins (statusF ++ [':']) l)
      = some (statusF ++ ':' :: ' ' :: answeredS) := by
    rcases aeQuestionHeading_shape qt idv b with h | ⟨v, i, t, h⟩
    · rw [h]
      exact hb
    · rw [h]
      have h3 := find?_replaceField_other (f := questionF) (v := v)
        (by decide) hb
      have hfix : hdrSubLine i t (statusF ++ ':' :: ' ' :: answeredS)
          = statusF ++ ':' :: ' ' :: answeredS :=
        hdrSubLine_fix (by decide) hcan
      have := find?_map_first
        (fun l _ hl => hdrSubLine_begins_false (by decide) hl) h3
        (by rw [hfix]; exact hcan)
      rwa [hfix] at this
  have hfixN : hdrNormLine (statusF ++ ':' :: ' ' :: answeredS)
      = statusF ++ ':' :: ' ' :: answeredS :=
    hdrNormLine_fix (by decide) hcan
  have h6 := find?_map_first
    (fun l _ hl => hdrNormLine_begins_false (by decide) hl) hb5
    (by rw [hfixN]; exact hcan)
  rw [hfixN] at h6
  have hfixNb : nbFixLine (statusF ++ ':' :: ' ' :: answeredS)
      = statusF ++ ':' :: ' ' :: answeredS := by decide
  have h7 := find?_map_first
    (fun l _ hl => begins_nbFixLine_false (by decide) hl) h6
    (by rw [hfixNb]; exact hcan)
  rw [hfixNb] at h7
  rw [nbFixAll, parseField_of_find? h7, drop_canonical, pyStrip_cons_space]
  decide

/-! ## Concrete records used by the witnesses -/

/-- A question block in the exact shape written by `_question_block`,
with a recorded answer. -/
def wBlockAns : Block :=
  ["## SEC-001: How do you test?".data,
   "Question: How do you test?".data,
   "Status: partial".data,
   "Confidence: n/a".data,
   "Answer: We do X".data,
   "Evidence:".data,
   "Human Questions:".data,
   "Kanbus Task: kanbus-test-1".data,
   "Last Updated: 2020-01-01T00:00:00+00:00".data,
   "".data]

/-- A question block with no answer recorded. -/
def wBlockNoAns : Block :=
  ["## SEC-001: How do you test?".data,
   "Question: How do you test?".data,
   "Status: unanswered".data,
   "Confidence: n/a".data,
   "Answer:".data,
   "Evidence:".data,
   "Human Questions:".data,
   "Kanbus Task: kanbus-test-1".data,
   "Last Updated: 2020-01-01T00:00:00+00:00".data,
   "".data]

/-- A default entry (only used as a `getD` fallback). -/
def noEntry : Entry := ⟨[], [], [], [], [], [], []⟩

def wEntryAns : Entry := (parseQuestionBlock wBlockAns).getD noEntry

def wEntryNoAns : Entry := (parseQuestionBlock wBlockNoAns).getD noEntry

/-! ## Claim C1 -/

/-- **C1.**  For every question record, when status reconciliation runs
during evidence application and the record's `Answer` field is
non-empty, the resulting `Status` is `answered`, regardless of the
record's prior status and of whether an evidence summary is available.
(The record must have a `Status:` field line — every block written by
this system does — since `_replace_field` never creates field lines.) -/
theorem claimC1_answer_dominance (summary : Line) (e : Entry)
    (hans : parseField e.block answerF ≠ [])
    (hst : ∃ l ∈ e.block, begins (statusF ++ [':']) l = true) :
    parseField (applyEvidenceEntry summary e) statusF = answeredS := by
  obtain ⟨x, hx⟩ : ∃ x, e.block.find? (fun l => begins (statusF ++ [':']) l) = some x := by
    rcases hst with ⟨l, hl, hpl⟩
    exact Option.isSome_iff_exists.mp (List.find?_isSome.mpr ⟨l, hl, hpl⟩)
  have hcur : reconcileStatus summary e = answeredS := by
    unfold reconcileStatus
    simp [hans]
  have h1 := find?_replaceField_other (f := evidenceF) (v := summary) (by decide) hx
  have h2 := find?_replaceField_self (v := answeredS) h1
  rw [applyEvidenceEntry_def, hcur]
  have hA : aeStatusAnswered answeredS (replaceField e.block evidenceF summary)
      = replaceField (replaceField e.block evidenceF summary) statusF answeredS := by
    simp [aeStatusAnswered]
  have hO : ∀ b : Block, aeStatusOther answeredS summary b = b := by
    intro b; simp [aeStatusOther]
  have hH : ∀ qt (b : Block), aeHumanQuestions qt answeredS b = b := by
    intro qt b; simp [aeHumanQuestions]
  rw [hA, hO, hH]
  exact parseField_status_after _ _ _ h2

/-- Witness for C1: a concrete record whose prior status is `partial`,
with an answer present and no evidence summary, ends `answered`. -/
theorem claimC1_answer_dominance_witness :
    parseField (applyEvidenceEntry [] wEntryAns) statusF = answeredS :=
  claimC1_answer_dominance [] wEntryAns (by decide) (by decide)

/-! ## Claims C5 and C6: the field codec -/

theorem lineRepl_idem (f v l : Line) :
    lineRepl f v (lineRepl f v l) = lineRepl f v l := by
  by_cases h : begins (f ++ [':']) l = true
  · have h1 : lineRepl f v l = f ++ ':' :: ' ' :: v := by simp [lineRepl, h]
    rw [h1]
    simp [lineRepl, begins_canonical]
  · have h' : begins (f ++ [':']) l = false := by simpa using h
    rw [lineRepl_fix h']
    exact lineRepl_fix h'

/-- **C5 counterexample.**  A block whose `Status` field line is
present (`"Status:  x"`, two spaces) is *not* returned byte-identical
when the field is replaced with its own parsed value: `_replace_field`
always rewrites the line into the canonical single-space form. -/
theorem claimC5_counterexample :
    (∃ l ∈ (["Status:  x".data] : Block), begins (statusF ++ [':']) l = true) ∧
    parseField ["Status:  x".data] statusF = "x".data ∧
    replaceField ["Status:  x".data] statusF
        (parseField ["Status:  x".data] statusF) ≠ ["Status:  x".data] := by
  decide

/-- **C5 (amended).**  Field replacement is idempotent: applying the
same replacement twice yields the same block as applying it once.
Replacing a field with its own parsed value is byte-identical only
when every matching field line is already in the canonical
`"<field>: <value>"` spacing. -/
theorem claimC5_idempotent :
    (∀ (b : Block) (f v : Line),
      replaceField (replaceField b f v) f v = replaceField b f v) ∧
    (∀ (b : Block) (f : Line),
      (∀ l ∈ b, begins (f ++ [':']) l = true → l = f ++ ':' :: ' ' :: parseField b f) →
      replaceField b f (parseField b f) = b) := by
  constructor
  · intro b f v
    rw [replaceField_eq_map b, replaceField_eq_map, List.map_map]
    apply List.map_congr_left
    intro l _
    exact lineRepl_idem f v l
  · intro b f h
    unfold replaceField
    cases hb : b.any (fun l => begins (f ++ [':']) l) with
    | false => simp
    | true =>
      simp only [if_true]
      apply map_fix
      intro l hl
      by_cases hpl : begins (f ++ [':']) l = true
      · rw [lineRepl, if_pos hpl, ← h l hl hpl]
      · exact lineRepl_fix (by simpa using hpl)

/-- Witness for C5: idempotence at a concrete block, and the
byte-identical round trip on a canonical-form block. -/
theorem claimC5_idempotent_witness :
    replaceField (replaceField wBlockNoAns statusF partialS) statusF partialS
      = replaceField wBlockNoAns statusF partialS ∧
    replaceField wBlockAns statusF (parseField wBlockAns statusF) = wBlockAns :=
  ⟨claimC5_idempotent.1 wBlockNoAns statusF partialS,
   claimC5_idempotent.2 wBlockAns statusF (by decide)⟩

/-- **C6 counterexample.**  No line of `["Status:a"]` begins with
`"Status: "` (the claim's field-line shape), so by the claim the block
should be returned unchanged; `_replace_field`'s pattern
`^Status:.*$` nevertheless matches and rewrites the line. -/
theorem claimC6_counterexample :
    (∀ l ∈ (["Status:a".data] : Block), begins (statusF ++ ':' :: [' ']) l = false) ∧
    replaceField ["Status:a".data] statusF "b".data ≠ ["Status:a".data] := by
  decide

/-- **C6 (amended).**  Field replacement rewrites exactly the lines
beginning with `"<field>:"` (a following space is not required, and
all such lines are rewritten if there are several), each to
`"<field>: <value>"`; every other line is byte-for-byte unchanged,
with line count and order preserved; and when no line begins with
`"<field>:"` the block is returned unchanged. -/
theorem claimC6_locality (b : Block) (f v : Line) :
    replaceField b f v
      = b.map (fun l => if begins (f ++ [':']) l then f ++ ':' :: ' ' :: v else l) ∧
    (∀ i, begins (f ++ [':']) (b.getD i []) = false →
      (replaceField b f v).getD i [] = b.getD i []) ∧
    ((∀ l ∈ b, begins (f ++ [':']) l = false) → replaceField b f v = b) := by
  refine ⟨replaceField_eq_map b f v, ?_, ?_⟩
  · intro i hi
    rw [replaceField_eq_map, List.getD_eq_getElem?_getD, List.getElem?_map,
      List.getD_eq_getElem?_getD]
    cases hbi : b[i]? with
    | none => rfl
    | some l =>
      have hl : b.getD i [] = l := by rw [List.getD_eq_getElem?_getD, hbi]; rfl
      rw [hl] at hi
      simp only [Option.map_some, Option.getD_some]
      exact lineRepl_fix hi
  · intro h
    unfold replaceField
    cases hb : b.any (fun l => begins (f ++ [':']) l) with
    | false => simp
    | true =>
      exfalso
      rcases List.any_eq_true.mp hb with ⟨l, hl, hpl⟩
      rw [h l hl] at hpl
      exact absurd hpl (by simp)

/-- Witness for C6: the `Question` line (index 1) of a concrete block
survives a `Status` replacement unchanged, and a block without any
`Status` line is returned unchanged. -/
theorem claimC6_locality_witness :
    (replaceField wBlockAns statusF "x".data).getD 1 [] = wBlockAns.getD 1 [] ∧
    replaceField ["# title".data] statusF "x".data = ["# title".data] :=
  ⟨(claimC6_locality wBlockAns statusF "x".data).2.1 1 (by decide),
   (claimC6_locality ["# title".data] statusF "x".data).2.2 (by decide)⟩

/-! ## Claim C7: parse / rewrite round trip -/

theorem runBegins_iff_append {α : Type} [DecidableEq α] {q l : List α} :
    runBegins q l = true ↔ ∃ t, l = q ++ t := by
  induction q generalizing l with
  | nil => simp [runBegins]
  | cons a as ih =>
    cases l with
    | nil => simp [runBegins]
    | cons c cs =>
      simp only [runBegins, Bool.and_eq_true, decide_eq_true_eq, ih]
      constructor
      · rintro ⟨rfl, t, rfl⟩
        exact ⟨t, rfl⟩
      · rintro ⟨t, ht⟩
        cases ht
        exact ⟨rfl, t, rfl⟩

theorem listReplaceAux_skip {α : Type} [DecidableEq α] (pat rep : List α) :
    ∀ (l : List α) (n : Nat),
      listReplaceAux pat rep (n + 1) l = listReplaceAux pat rep 0 (l.drop (n + 1)) := by
  intro l
  induction l with
  | nil => intro n; rfl
  | cons c cs ih =>
    intro n
    cases n with
    | zero => rfl
    | succ n =>
      show listReplaceAux pat rep (n + 1) cs = _
      rw [ih n]
      rfl

theorem listReplaceAux_self {α : Type} [DecidableEq α] (p : α) (ps : List α) :
    ∀ (n : Nat) (l : List α), l.length ≤ n →
      listReplaceAux (p :: ps) (p :: ps) 0 l = l := by
  intro n
  induction n with
  | zero =>
    intro l hl
    cases l with
    | nil => rfl
    | cons c cs => simp at hl
  | succ n ih =>
    intro l hl
    cases l with
    | nil => rfl
    | cons c cs =>
      show (if runBegins (p :: ps) (c :: cs) then
          (p :: ps) ++ listReplaceAux (p :: ps) (p :: ps) ((p :: ps).length - 1) cs
        else c :: listReplaceAux (p :: ps) (p :: ps) 0 cs) = c :: cs
      by_cases h : runBegins (p :: ps) (c :: cs) = true
      · rw [if_pos h]
        obtain ⟨t, ht⟩ := runBegins_iff_append.mp h
        have hdrop : cs.drop ps.length = t := by
          have h1 : (c :: cs).drop (p :: ps).length = t := by
            rw [ht]; exact List.drop_left _ _
          simpa using h1
        have hlen : t.length ≤ cs.length := by
          have h2 := congrArg List.length ht
          simp at h2
          omega
        have hskip : listReplaceAux (p :: ps) (p :: ps) ((p :: ps).length - 1) cs
            = listReplaceAux (p :: ps) (p :: ps) 0 (cs.drop ps.length) := by
          cases hps : ps with
          | nil => simp [hps]
          | cons q qs =>
            have hl1 : (p :: q :: qs).length - 1 = qs.length + 1 := by simp
            rw [hl1, listReplaceAux_skip]
            rfl
        rw [hskip, hdrop, ih t (by simp at hl; omega)]
        exact ht.symm
      · rw [if_neg h, ih cs (by simp at hl; omega)]

theorem listReplace_self {α : Type} [DecidableEq α] (s pat : List α) :
    listReplace s pat pat = s := by
  cases pat with
  | nil => simp [listReplace, List.flatMap_singleton' s]
  | cons p ps => exact listReplaceAux_self p ps s.length s (le_refl _)

/-- The no-change rewrite: parse the document and substitute every
parsed block back for itself (`new_content.replace(block, block)` as in
the rewrite loops of `cmd_apply_evidence` / `cmd_record_answer`), in
order. -/
def rewriteUnchanged (doc : Block) : Block :=
  (parseQuestionsFromReport doc).foldl (fun acc e => listReplace acc e.block e.block) doc

/-- **C7.**  Parsing a document into its ordered records and rewriting
each record's raw span unchanged returns the original document
byte-for-byte. -/
theorem claimC7_roundtrip (doc : Block) : rewriteUnchanged doc = doc := by
  unfold rewriteUnchanged
  generalize parseQuestionsFromReport doc = es
  induction es generalizing doc with
  | nil => rfl
  | cons e es ih => rw [List.foldl_cons, listReplace_self]; exact ih doc

/-! ## More `find?` transport: exact preservation lemmas -/

theorem find?_map_keep {F : Line → Line} {p : Line → Bool} {b : Block}
    (h1 : ∀ l ∈ b, p l = true → F l = l)
    (h2 : ∀ l ∈ b, p l = false → p (F l) = false) :
    (b.map F).find? p = b.find? p := by
  induction b with
  | nil => rfl
  | cons y ys ih =>
    cases hy : p y with
    | true =>
      rw [List.map_cons, List.find?_cons_of_pos _ hy,
        List.find?_cons_of_pos _ (by rw [h1 y (by simp) hy]; exact hy),
        h1 y (by simp) hy]
    | false =>
      rw [List.map_cons, List.find?_cons_of_neg _ (by simp [h2 y (by simp) hy]),
        List.find?_cons_of_neg _ (by simp [hy])]
      exact ih (fun l hl => h1 l (by simp [hl])) (fun l hl => h2 l (by simp [hl]))

/-- `replaceField f` preserves the `find?` of a field `g` whose first
character differs from `f`'s. -/
theorem find?_replaceField_eq {b : Block} (f v : Line) {g : Line}
    (hfg : g.headD ':' ≠ f.headD ':') :
    (replaceField b f v).find? (fun l => begins (g ++ [':']) l)
      = b.find? (fun l => begins (g ++ [':']) l) := by
  rw [replaceField_eq_map]
  apply find?_map_keep
  · intro l _ hl
    apply lineRepl_fix
    exact begins_false_of_begins (by simp) (by simp) (Ne.symm (field_head_ne hfg)) hl
  · intro l _ hl
    rcases lineRepl_out f v l with h | h
    · rw [h]; exact hl
    · rw [h]; exact begins_canonical_ne hfg

/-- A per-line map with the same shape as `lineRepl` (used for the
`Answer` substitution of `cmd_record_answer`) preserves the `find?` of
a field `g` with a different first character. -/
theorem find?_map_lineRepl_eq {b : Block} (f v : Line) {g : Line}
    (hfg : g.headD ':' ≠ f.headD ':') :
    (b.map (lineRepl f v)).find? (fun l => begins (g ++ [':']) l)
      = b.find? (fun l => begins (g ++ [':']) l) := by
  apply find?_map_keep
  · intro l _ hl
    apply lineRepl_fix
    exact begins_false_of_begins (by simp) (by simp) (Ne.symm (field_head_ne hfg)) hl
  · intro l _ hl
    rcases lineRepl_out f v l with h | h
    · rw [h]; exact hl
    · rw [h]; exact begins_canonical_ne hfg

theorem ansSubLine_eq_lineRepl (a l : Line) : ansSubLine a l = lineRepl answerF a l := rfl

theorem find?_hdrSub_eq {b : Block} (idv t : Line) {g : Line}
    (hg : g.headD ':' ≠ '#') :
    (b.map (hdrSubLine idv t)).find? (fun l => begins (g ++ [':']) l)
      = b.find? (fun l => begins (g ++ [':']) l) := by
  apply find?_map_keep
  · intro l _ hl; exact hdrSubLine_fix hg hl
  · intro l _ hl; exact hdrSubLine_begins_false hg hl

theorem find?_hdrNorm_eq {b : Block} {g : Line} (hg : g.headD ':' ≠ '#') :
    (b.map hdrNormLine).find? (fun l => begins (g ++ [':']) l)
      = b.find? (fun l => begins (g ++ [':']) l) := by
  apply find?_map_keep
  · intro l _ hl; exact hdrNormLine_fix hg hl
  · intro l _ hl; exact hdrNormLine_begins_false hg hl

/-! ## Safety of the final NBSP scrub with respect to a field pattern -/

/-- `NbSafe pr b`: no line of `b` that is not a `pr`-line can become a
`pr`-line through the NBSP scrub. -/
def NbSafe (pr : List Char) (b : Block) : Prop :=
  ∀ l ∈ b, begins pr l = false → begins pr (nbFixLine l) = false

theorem nbSafe_of_clean {pr : List Char} {b : Block}
    (h : ∀ l ∈ b, ∀ c ∈ l, c ≠ '\u00A0' ∧ c ≠ 'Â') : NbSafe pr b := by
  intro l hl hfalse
  rw [nbFixLine_id (h l hl)]
  exact hfalse

/-- `NbSafe` survives any per-line map whose images are the original
line, a `pr`-line, or a line the scrub keeps out of `pr`-shape. -/
theorem nbSafe_map {pr : List Char} {F : Line → Line} {b : Block}
    (hb : NbSafe pr b)
    (hF : ∀ l, F l = l ∨ begins pr (F l) = true ∨
      begins pr (nbFixLine (F l)) = false) :
    NbSafe pr (b.map F) := by
  intro l' hl' hfalse
  rcases List.mem_map.mp hl' with ⟨a, ha, rfl⟩
  rcases hF a with h | h | h
  · rw [h] at hfalse ⊢
    exact hb a ha hfalse
  · rw [h] at hfalse; cases hfalse
  · exact h

theorem headD_nbFixLine {l : List Char} (h : l ≠ []) :
    (nbFixLine l).headD ' ' = nbChar (l.headD ' ') := by
  cases l with
  | nil => exact absurd rfl h
  | cons c cs => rfl

theorem begins_nbFix_canonical_ne {g : List Char} (f v : Line)
    (h : g.headD ' ' ≠ nbChar (f.headD ':')) (hg : g ≠ []) :
    begins g (nbFixLine (f ++ ':' :: ' ' :: v)) = false := by
  apply begins_ne_headD hg (by simp [nbFixLine])
  rw [headD_nbFixLine (by cases f <;> simp), headD_append_cons]
  exact h

theorem begins_nbFix_hash_ne {g : List Char} {r : List Char}
    (h : g.headD ' ' ≠ '#') (hg : g ≠ []) :
    begins g (nbFixLine ('#' :: '#' :: ' ' :: r)) = false := by
  apply begins_ne_headD hg (by simp [nbFixLine])
  rw [headD_nbFixLine (by simp)]
  simpa [nbChar] using h

/-- `NbSafe` step for a `replaceField`-style stage. -/
theorem nbSafe_lineRepl {pr : List Char} {b : Block} (f v : Line)
    (hb : NbSafe pr b)
    (hcan : begins pr (f ++ ':' :: ' ' :: v) = true ∨
      begins pr (nbFixLine (f ++ ':' :: ' ' :: v)) = false) :
    NbSafe pr (b.map (lineRepl f v)) := by
  apply nbSafe_map hb
  intro l
  rcases lineRepl_out f v l with h | h
  · exact Or.inl h
  · rw [h]
    exact Or.inr hcan

theorem nbSafe_replaceField {pr : List Char} {b : Block} (f v : Line)
    (hb : NbSafe pr b)
    (hcan : begins pr (f ++ ':' :: ' ' :: v) = true ∨
      begins pr (nbFixLine (f ++ ':' :: ' ' :: v)) = false) :
    NbSafe pr (replaceField b f v) := by
  rw [replaceField_eq_map]
  exact nbSafe_lineRepl f v hb hcan

theorem nbSafe_hdrSub {pr : List Char} {b : Block} (idv t : Line)
    (hb : NbSafe pr b) (hpr : pr.headD ' ' ≠ '#') (hprne : pr ≠ []) :
    NbSafe pr (b.map (hdrSubLine idv t)) := by
  apply nbSafe_map hb
  intro l
  rcases hdrSubLine_out idv t l with h | ⟨r, h⟩
  · exact Or.inl h
  · rw [h]
    exact Or.inr (Or.inr (begins_nbFix_hash_ne hpr hprne))

theorem nbSafe_hdrNorm {pr : List Char} {b : Block}
    (hb : NbSafe pr b) (hpr : pr.headD ' ' ≠ '#') (hprne : pr ≠ []) :
    NbSafe pr (b.map hdrNormLine) := by
  apply nbSafe_map hb
  intro l
  rcases hdrNormLine_out l with h | ⟨r, h⟩
  · exact Or.inl h
  · rw [h]
    exact Or.inr (Or.inr (begins_nbFix_hash_ne hpr hprne))

/-- Final two stages of `cmd_apply_evidence` (heading normalisation and
NBSP scrub): the parse of field `g` equals its parse in the reference
block `b0` whenever the stages so far preserved `find?` and the found
line is scrub-invariant. -/
theorem parseField_tail_eq {g : Line} (hg : g.headD ':' ≠ '#') {b0 b : Block}
    (hfind : b.find? (fun l => begins (g ++ [':']) l)
      = b0.find? (fun l => begins (g ++ [':']) l))
    (hsafe : NbSafe (g ++ [':']) (b.map hdrNormLine))
    (hfixx : ∀ x, b0.find? (fun l => begins (g ++ [':']) l) = some x →
      nbFixLine x = x) :
    parseField (nbFixAll (b.map hdrNormLine)) g = parseField b0 g := by
  have h5 : (b.map hdrNormLine).find? (fun l => begins (g ++ [':']) l)
      = b0.find? (fun l => begins (g ++ [':']) l) := by
    rw [find?_hdrNorm_eq hg, hfind]
  cases hx : b0.find? (fun l => begins (g ++ [':']) l) with
  | none =>
    rw [parseField_of_find?_none (b := nbFixAll (b.map hdrNormLine)) ?_,
      parseField_of_find?_none hx]
    exact find?_map_none (fun l hl h => hsafe l hl h) (by rw [h5, hx])
  | some x =>
    have hx5 : (b.map hdrNormLine).find? (fun l => begins (g ++ [':']) l)
        = some x := by rw [h5, hx]
    have hnb := find?_map_first (fun l hl h => hsafe l hl h) hx5
      (by rw [hfixx x hx]; exact List.find?_some hx5)
    rw [hfixx x hx] at hnb
    rw [nbFixAll, parseField_of_find? hnb, parseField_of_find? hx]

/-! ## Claim C3: Last Updated -/

/-- The `Last Updated` parse survives the whole stage chain of
`cmd_apply_evidence`, whatever branches were taken: the four rewritten
fields and the heading rewrites all start with characters other than
`'L'`, and the scrub fixes clean lines. -/
theorem lu_staged (summary : Line) {b0 b1 b2 b3 b4 b5 : Block}
    (hclean : ∀ l ∈ b0, ∀ c ∈ l, c ≠ '\u00A0' ∧ c ≠ 'Â')
    (e5 : b5 = b4 ∨ ∃ v i t, b5 = (replaceField b4 questionF v).map (hdrSubLine i t))
    (e4 : b4 = b3 ∨ ∃ v, b4 = replaceField b3 hqF v)
    (e3 : b3 = b2 ∨ ∃ v, b3 = replaceField b2 statusF v)
    (e2 : b2 = b1 ∨ ∃ v, b2 = replaceField b1 statusF v)
    (e1 : b1 = replaceField b0 evidenceF summary) :
    parseField (nbFixAll (b5.map hdrNormLine)) luF = parseField b0 luF := by
  apply parseField_tail_eq (by decide)
  · have f1 : b1.find? (fun l => begins (luF ++ [':']) l)
        = b0.find? (fun l => begins (luF ++ [':']) l) := by
      rw [e1]; exact find?_replaceField_eq _ _ (by decide)
    have f2 : b2.find? (fun l => begins (luF ++ [':']) l)
        = b1.find? (fun l => begins (luF ++ [':']) l) := by
      rcases e2 with rfl | ⟨v, rfl⟩
      · rfl
      · exact find?_replaceField_eq _ _ (by decide)
    have f3 : b3.find? (fun l => begins (luF ++ [':']) l)
        = b2.find? (fun l => begins (luF ++ [':']) l) := by
      rcases e3 with rfl | ⟨v, rfl⟩
      · rfl
      · exact find?_replaceField_eq _ _ (by decide)
    have f4 : b4.find? (fun l => begins (luF ++ [':']) l)
        = b3.find? (fun l => begins (luF ++ [':']) l) := by
      rcases e4 with rfl | ⟨v, rfl⟩
      · rfl
      · exact find?_replaceField_eq _ _ (by decide)
    have f5 : b5.find? (fun l => begins (luF ++ [':']) l)
        = b4.find? (fun l => begins (luF ++ [':']) l) := by
      rcases e5 with rfl | ⟨v, i, t, rfl⟩
      · rfl
      · rw [find?_hdrSub_eq _ _ (by decide)]
        exact find?_replaceField_eq _ _ (by decide)
    exact f5.trans (f4.trans (f3.trans (f2.trans f1)))
  · have s0 : NbSafe (luF ++ [':']) b0 := nbSafe_of_clean hclean
    have s1 : NbSafe (luF ++ [':']) b1 := by
      rw [e1]
      exact nbSafe_replaceField _ _ s0
        (Or.inr (begins_nbFix_canonical_ne _ _ (by decide) (by simp)))
    have s2 : NbSafe (luF ++ [':']) b2 := by
      rcases e2 with rfl | ⟨v, rfl⟩
      · exact s1
      · exact nbSafe_replaceField _ _ s1
          (Or.inr (begins_nbFix_canonical_ne _ _ (by decide) (by simp)))
    have s3 : NbSafe (luF ++ [':']) b3 := by
      rcases e3 with rfl | ⟨v, rfl⟩
      · exact s2
      · exact nbSafe_replaceField _ _ s2
          (Or.inr (begins_nbFix_canonical_ne _ _ (by decide) (by simp)))
    have s4 : NbSafe (luF ++ [':']) b4 := by
      rcases e4 with rfl | ⟨v, rfl⟩
      · exact s3
      · exact nbSafe_replaceField _ _ s3
          (Or.inr (begins_nbFix_canonical_ne _ _ (by decide) (by simp)))
    have s5 : NbSafe (luF ++ [':']) b5 := by
      rcases e5 with rfl | ⟨v, i, t, rfl⟩
      · exact s4
      · apply nbSafe_hdrSub _ _ ?_ (by decide) (by simp)
        exact nbSafe_replaceField _ _ s4
          (Or.inr (begins_nbFix_canonical_ne _ _ (by decide) (by simp)))
    exact nbSafe_hdrNorm s5 (by decide) (by simp)
  · intro x hx
    exact nbFixLine_id (hclean x (List.mem_of_find?_eq_some hx))

/-- **C3 counterexample.**  Evidence application changes the concrete
record's `Status` from `unanswered` to `partial` but leaves its
`Last Updated` value byte-identical (`cmd_apply_evidence` never touches
that field), so the operation does not refresh `Last Updated`. -/
theorem claimC3_counterexample :
    parseField wEntryNoAns.block statusF = unansweredS ∧
    parseField (applyEvidenceEntry "languages=.py".data wEntryNoAns) statusF = partialS ∧
    parseField (applyEvidenceEntry "languages=.py".data wEntryNoAns) luF
      = "2020-01-01T00:00:00+00:00".data ∧
    parseField wEntryNoAns.block luF = "2020-01-01T00:00:00+00:00".data := by
  decide

/-- **C3 (amended).**  Explicit answer recording refreshes
`Last Updated` (the stripped timestamp it was given); evidence
application, even when it changes `Status`, never touches
`Last Updated`: the field's parsed value is identical before and after
(stated for blocks free of the encoding artefacts the pass itself
scrubs, which holds for every block the system writes). -/
theorem claimC3_last_updated :
    (∀ (st cf ans now : Line) (b : Block),
      (∃ l ∈ b, begins (luF ++ [':']) l = true) →
      parseField (recordAnswerBlock st cf ans now b) luF = pyStrip now) ∧
    (∀ (summary : Line) (e : Entry),
      (∀ l ∈ e.block, ∀ c ∈ l, c ≠ '\u00A0' ∧ c ≠ 'Â') →
      parseField (applyEvidenceEntry summary e) luF = parseField e.block luF) := by
  constructor
  · intro st cf ans now b hex
    obtain ⟨x, hx⟩ : ∃ x, b.find? (fun l => begins (luF ++ [':']) l) = some x := by
      rcases hex with ⟨l, hl, hpl⟩
      exact Option.isSome_iff_exists.mp (List.find?_isSome.mpr ⟨l, hl, hpl⟩)
    unfold recordAnswerBlock
    apply parseField_replaceField
    have h1 := find?_replaceField_eq (b := b) statusF st
      (g := luF) (by decide)
    have h2 := find?_replaceField_eq (b := replaceField b statusF st)
      confidenceF cf (g := luF) (by decide)
    have h3 : ((replaceField (replaceField b statusF st) confidenceF cf).map
        (ansSubLine ans)).find? (fun l => begins (luF ++ [':']) l)
        = some x := by
      have hmap : (replaceField (replaceField b statusF st) confidenceF cf).map
          (ansSubLine ans)
          = (replaceField (replaceField b statusF st) confidenceF cf).map
            (lineRepl answerF ans) := by
        apply List.map_congr_left
        intro a _
        exact ansSubLine_eq_lineRepl ans a
      rw [hmap, find?_map_lineRepl_eq _ _ (by decide), h2, h1, hx]
    rcases List.find?_isSome.mp (by rw [h3]; rfl) with ⟨l, hl, hpl⟩
    exact ⟨l, hl, hpl⟩
  · intro summary e hclean
    rw [applyEvidenceEntry_def]
    exact lu_staged summary hclean
      (aeQuestionHeading_shape _ _ _)
      (aeHumanQuestions_shape _ _ _)
      (aeStatusOther_shape _ _ _)
      (aeStatusAnswered_shape _ _)
      rfl

/-- Witness for C3: recording at a concrete block writes the given
timestamp; evidence application preserves the concrete timestamp. -/
theorem claimC3_last_updated_witness :
    parseField (recordAnswerBlock answeredS "medium".data "We do Y".data
      "2026-01-01T00:00:00+00:00".data wBlockNoAns) luF
      = pyStrip "2026-01-01T00:00:00+00:00".data ∧
    parseField (applyEvidenceEntry "x".data wEntryNoAns) luF
      = parseField wEntryNoAns.block luF :=
  ⟨claimC3_last_updated.1 answeredS "medium".data "We do Y".data
      "2026-01-01T00:00:00+00:00".data wBlockNoAns (by decide),
   claimC3_last_updated.2 "x".data wEntryNoAns (by decide)⟩

/-! ## Claim C9: Human Questions -/

theorem parseField_congr_find? {b b' : Block} {f : Line}
    (h : b.find? (fun l => begins (f ++ [':']) l)
      = b'.find? (fun l => begins (f ++ [':']) l)) :
    parseField b f = parseField b' f := by
  unfold parseField
  rw [h]

/-- The `Human Questions` stage leaves the block alone when the current
field value is non-empty and not a previously generated prompt
(whatever the other guards say). -/
theorem aeHumanQuestions_keep {qt cur : Line} {b : Block}
    (h : ¬(parseField b hqF = [] ∨ begins promptPfx (parseField b hqF) = true)) :
    aeHumanQuestions qt cur b = b := by
  by_cases hg : qt ≠ [] ∧ cur ≠ answeredS
  · simp only [aeHumanQuestions, if_pos hg, if_neg h]
  · simp only [aeHumanQuestions, if_neg hg]

/-- The `Human Questions` stage leaves the block alone when the
reconciled status is `answered`. -/
theorem aeHumanQuestions_ans (qt : Line) (b : Block) :
    aeHumanQuestions qt answeredS b = b := by
  simp [aeHumanQuestions]

/-- The parse of `Human Questions` after the evidence and status
stages equals its original parse (those stages rewrite fields starting
with other characters). -/
theorem parseField_hq_b3 (summary cur : Line) (b0 : Block) :
    parseField (aeStatusOther cur summary
      (aeStatusAnswered cur (replaceField b0 evidenceF summary))) hqF
      = parseField b0 hqF := by
  apply parseField_congr_find?
  have f1 : (replaceField b0 evidenceF summary).find?
      (fun l => begins (hqF ++ [':']) l)
      = b0.find? (fun l => begins (hqF ++ [':']) l) :=
    find?_replaceField_eq _ _ (by decide)
  have f2 : (aeStatusAnswered cur (replaceField b0 evidenceF summary)).find?
      (fun l => begins (hqF ++ [':']) l)
      = (replaceField b0 evidenceF summary).find?
        (fun l => begins (hqF ++ [':']) l) := by
    rcases aeStatusAnswered_shape cur (replaceField b0 evidenceF summary) with h | ⟨v, h⟩
    · rw [h]
    · rw [h]; exact find?_replaceField_eq _ _ (by decide)
  have f3 : (aeStatusOther cur summary
      (aeStatusAnswered cur (replaceField b0 evidenceF summary))).find?
      (fun l => begins (hqF ++ [':']) l)
      = (aeStatusAnswered cur (replaceField b0 evidenceF summary)).find?
        (fun l => begins (hqF ++ [':']) l) := by
    rcases aeStatusOther_shape cur summary
      (aeStatusAnswered cur (replaceField b0 evidenceF summary)) with h | ⟨v, h⟩
    · rw [h]
    · rw [h]; exact find?_replaceField_eq _ _ (by decide)
  exact f3.trans (f2.trans f1)

/-- The `Human Questions` parse survives the whole stage chain when
the `Human Questions` stage itself did not rewrite the field. -/
theorem hq_staged (summary : Line) {b0 b1 b2 b3 b4 b5 : Block}
    (hclean : ∀ l ∈ b0, ∀ c ∈ l, c ≠ '\u00A0' ∧ c ≠ 'Â')
    (e5 : b5 = b4 ∨ ∃ v i t, b5 = (replaceField b4 questionF v).map (hdrSubLine i t))
    (e4 : b4 = b3)
    (e3 : b3 = b2 ∨ ∃ v, b3 = replaceField b2 statusF v)
    (e2 : b2 = b1 ∨ ∃ v, b2 = replaceField b1 statusF v)
    (e1 : b1 = replaceField b0 evidenceF summary) :
    parseField (nbFixAll (b5.map hdrNormLine)) hqF = parseField b0 hqF := by
  apply parseField_tail_eq (by decide)
  · have f1 : b1.find? (fun l => begins (hqF ++ [':']) l)
        = b0.find? (fun l => begins (hqF ++ [':']) l) := by
      rw [e1]; exact find?_replaceField_eq _ _ (by decide)
    have f2 : b2.find? (fun l => begins (hqF ++ [':']) l)
        = b1.find? (fun l => begins (hqF ++ [':']) l) := by
      rcases e2 with rfl | ⟨v, rfl⟩
      · rfl
      · exact find?_replaceField_eq _ _ (by decide)
    have f3 : b3.find? (fun l => begins (hqF ++ [':']) l)
        = b2.find? (fun l => begins (hqF ++ [':']) l) := by
      rcases e3 with rfl | ⟨v, rfl⟩
      · rfl
      · exact find?_replaceField_eq _ _ (by decide)
    have f5 : b5.find? (fun l => begins (hqF ++ [':']) l)
        = b4.find? (fun l => begins (hqF ++ [':']) l) := by
      rcases e5 with rfl | ⟨v, i, t, rfl⟩
      · rfl
      · rw [find?_hdrSub_eq _ _ (by decide)]
        exact find?_replaceField_eq _ _ (by decide)
    rw [f5, e4, f3, f2, f1]
  · have s0 : NbSafe (hqF ++ [':']) b0 := nbSafe_of_clean hclean
    have s1 : NbSafe (hqF ++ [':']) b1 := by
      rw [e1]
      exact nbSafe_replaceField _ _ s0
        (Or.inr (begins_nbFix_canonical_ne _ _ (by decide) (by simp)))
    have s2 : NbSafe (hqF ++ [':']) b2 := by
      rcases e2 with rfl | ⟨v, rfl⟩
      · exact s1
      · exact nbSafe_replaceField _ _ s1
          (Or.inr (begins_nbFix_canonical_ne _ _ (by decide) (by simp)))
    have s3 : NbSafe (hqF ++ [':']) b3 := by
      rcases e3 with rfl | ⟨v, rfl⟩
      · exact s2
      · exact nbSafe_replaceField _ _ s2
          (Or.inr (begins_nbFix_canonical_ne _ _ (by decide) (by simp)))
    have s5 : NbSafe (hqF ++ [':']) b5 := by
      rcases e5 with rfl | ⟨v, i, t, rfl⟩
      · exact e4 ▸ s3
      · apply nbSafe_hdrSub _ _ ?_ (by decide) (by simp)
        exact nbSafe_replaceField _ _ (e4 ▸ s3)
          (Or.inr (begins_nbFix_canonical_ne _ _ (by decide) (by simp)))
    exact nbSafe_hdrNorm s5 (by decide) (by simp)
  · intro x hx
    exact nbFixLine_id (hclean x (List.mem_of_find?_eq_some hx))

/-- **C9.**  During evidence application the `Human Questions` field is
written only when the reconciled status is not `answered` and the
field's current value is empty or a previously auto-generated prompt:
if the reconciled status is `answered`, or if the current value is a
non-empty text not starting with the prompt prefix (a human-authored
note), the parsed `Human Questions` value is byte-for-byte unchanged.
(Stated for blocks free of the encoding artefacts the pass itself
scrubs.) -/
theorem claimC9_human_questions (summary : Line) (e : Entry)
    (hclean : ∀ l ∈ e.block, ∀ c ∈ l, c ≠ '\u00A0' ∧ c ≠ 'Â') :
    (reconcileStatus summary e = answeredS →
      parseField (applyEvidenceEntry summary e) hqF = parseField e.block hqF) ∧
    ((parseField e.block hqF ≠ [] ∧
        begins promptPfx (parseField e.block hqF) = false) →
      parseField (applyEvidenceEntry summary e) hqF = parseField e.block hqF) := by
  constructor
  · intro hcur
    rw [applyEvidenceEntry_def, hcur]
    exact hq_staged summary hclean
      (aeQuestionHeading_shape _ _ _)
      (aeHumanQuestions_ans _ _)
      (aeStatusOther_shape _ _ _)
      (aeStatusAnswered_shape _ _)
      rfl
  · rintro ⟨hne, hnp⟩
    rw [applyEvidenceEntry_def]
    have hkeep : aeHumanQuestions
        (normalizeText (if e.question ≠ [] then e.question else e.title))
        (reconcileStatus summary e)
        (aeStatusOther (reconcileStatus summary e) summary
          (aeStatusAnswered (reconcileStatus summary e)
            (replaceField e.block evidenceF summary)))
        = aeStatusOther (reconcileStatus summary e) summary
          (aeStatusAnswered (reconcileStatus summary e)
            (replaceField e.block evidenceF summary)) := by
      apply aeHumanQuestions_keep
      rw [parseField_hq_b3]
      rintro (h | h)
      · exact hne h
      · rw [hnp] at h
        cases h
    exact hq_staged summary hclean
      (aeQuestionHeading_shape _ _ _)
      hkeep
      (aeStatusOther_shape _ _ _)
      (aeStatusAnswered_shape _ _)
      rfl

/-- A block whose `Human Questions` field holds a human-authored
note. -/
def wBlockHuman : Block :=
  ["## SEC-001: How do you test?".data,
   "Question: How do you test?".data,
   "Status: needs_human".data,
   "Confidence: n/a".data,
   "Answer:".data,
   "Evidence:".data,
   "Human Questions: Ask the SRE team about runbooks.".data,
   "Kanbus Task: kanbus-test-1".data,
   "Last Updated: 2020-01-01T00:00:00+00:00".data,
   "".data]

def wEntryHuman : Entry := (parseQuestionBlock wBlockHuman).getD noEntry

/-- Witness for C9: an answered record keeps its `Human Questions`
parse, and a human-authored note survives evidence application. -/
theorem claimC9_human_questions_witness :
    parseField (applyEvidenceEntry "languages=.py".data wEntryAns) hqF
      = parseField wEntryAns.block hqF ∧
    parseField (applyEvidenceEntry "languages=.py".data wEntryHuman) hqF
      = parseField wEntryHuman.block hqF :=
  ⟨(claimC9_human_questions "languages=.py".data wEntryAns (by decide)).1 (by decide),
   (claimC9_human_questions "languages=.py".data wEntryHuman (by decide)).2 (by decide)⟩

/-! ## Claims C4 and C10: answer recording -/

/-- The fold of `cmd_record_answer` over one document's entries equals
the fold over the matching entries only, with the `updated` flag an
`any` of the matches. -/
theorem recordAnswer_fold_eq (qid st cf ans now : Line) :
    ∀ (es : List Entry) (b : Block) (fl : Bool),
      es.foldl (fun acc e =>
        if e.id = qid then
          (listReplace acc.1 e.block (recordAnswerBlock st cf ans now e.block), true)
        else acc) (b, fl)
      = ((es.filter (fun e => decide (e.id = qid))).foldl
          (fun acc e => listReplace acc e.block (recordAnswerBlock st cf ans now e.block)) b,
         fl || es.any (fun e => decide (e.id = qid))) := by
  intro es
  induction es with
  | nil => intro b fl; simp
  | cons e es ih =>
    intro b fl
    rw [List.foldl_cons]
    by_cases h : e.id = qid
    · rw [if_pos h, ih]
      simp [h]
    · rw [if_neg h, ih]
      simp [h]

theorem recordAnswerDoc_eq (qid st cf ans now : Line) (doc : Block) :
    recordAnswerDoc qid st cf ans now doc
      = (((parseQuestionsFromReport doc).filter (fun e => decide (e.id = qid))).foldl
          (fun acc e => listReplace acc e.block (recordAnswerBlock st cf ans now e.block)) doc,
        (parseQuestionsFromReport doc).any (fun e => decide (e.id = qid))) := by
  unfold recordAnswerDoc
  rw [recordAnswer_fold_eq]
  simp

theorem recordAnswer_eq (qid st cf ans now : Line) :
    ∀ (docs : List Block) (acc : List Block) (fl : Bool),
      docs.foldl (fun acc doc =>
          let r := recordAnswerDoc qid st cf ans now doc
          (acc.1 ++ [r.1], acc.2 || r.2)) (acc, fl)
      = (acc ++ docs.map (fun d => (recordAnswerDoc qid st cf ans now d).1),
         fl || docs.any (fun d => (recordAnswerDoc qid st cf ans now d).2)) := by
  intro docs
  induction docs with
  | nil => intro acc fl; simp
  | cons d docs ih =>
    intro acc fl
    rw [List.foldl_cons]
    show docs.foldl _ (acc ++ [(recordAnswerDoc qid st cf ans now d).1],
      fl || (recordAnswerDoc qid st cf ans now d).2) = _
    rw [ih]
    simp [Bool.or_assoc]

/-- **C10.**  `cmd_record_answer` updates every record whose id equals
the given question id, in every pillar document (the per-document fold
runs over all matching entries, each replacing every occurrence of its
block), it reports failure (`Question ID not found in reports`) exactly
when no entry of any existing document carries the id, and in that case
every document is returned byte-for-byte unchanged. -/
theorem claimC10_record_answer (qid st cf ans now : Line) (docs : List Block) :
    ((recordAnswer qid st cf ans now docs).2 = false ↔
      ∀ d ∈ docs, ∀ e ∈ parseQuestionsFromReport d, e.id ≠ qid) ∧
    ((recordAnswer qid st cf ans now docs).2 = false →
      (recordAnswer qid st cf ans now docs).1 = docs) ∧
    (recordAnswer qid st cf ans now docs).1
      = docs.map (fun d =>
          ((parseQuestionsFromReport d).filter (fun e => decide (e.id = qid))).foldl
            (fun acc e => listReplace acc e.block (recordAnswerBlock st cf ans now e.block)) d) := by
  have hrw : recordAnswer qid st cf ans now docs
      = (docs.map (fun d => (recordAnswerDoc qid st cf ans now d).1),
         docs.any (fun d => (recordAnswerDoc qid st cf ans now d).2)) := by
    unfold recordAnswer
    rw [recordAnswer_eq]
    simp
  have hflag : (recordAnswer qid st cf ans now docs).2 = false ↔
      ∀ d ∈ docs, ∀ e ∈ parseQuestionsFromReport d, e.id ≠ qid := by
    rw [hrw]
    simp only [Bool.not_eq_true]
    rw [← Bool.not_eq_true, Bool.not_eq_true, List.any_eq_false]
    constructor
    · intro h d hd e he hid
      have h1 := h d hd
      rw [recordAnswerDoc_eq] at h1
      simp only [Bool.not_eq_true, List.any_eq_false] at h1
      have h2 := h1 e he
      simp at h2
      exact h2 hid
    · intro h d hd
      rw [recordAnswerDoc_eq]
      simp only [Bool.not_eq_true, List.any_eq_false]
      intro e he
      simp [h d hd e he]
  refine ⟨hflag, ?_, ?_⟩
  · intro h
    have hmatch := hflag.mp h
    rw [hrw]
    simp only []
    have : ∀ d ∈ docs, (recordAnswerDoc qid st cf ans now d).1 = d := by
      intro d hd
      rw [recordAnswerDoc_eq]
      simp only []
      have hfil : (parseQuestionsFromReport d).filter (fun e => decide (e.id = qid)) = [] := by
        rw [List.filter_eq_nil_iff]
        intro e he
        simp [hmatch d hd e he]
      rw [hfil]
      rfl
    rw [List.map_congr_left (g := id) (fun d hd => this d hd), List.map_id]
  · rw [hrw]
    simp only []
    apply List.map_congr_left
    intro d _
    rw [recordAnswerDoc_eq]

/-- A pillar document holding one record. -/
def wDoc : Block :=
  "# Security".data :: "".data :: wBlockNoAns ++ ["> Attribution: AWS".data]

/-- Witness for C10: a question id present in no document leaves every
document unchanged (and the flag says so). -/
theorem claimC10_record_answer_witness :
    (recordAnswer "NOPE-1".data answeredS "medium".data "x".data "t".data [wDoc]).1
      = [wDoc] :=
  (claimC10_record_answer "NOPE-1".data answeredS "medium".data "x".data "t".data
    [wDoc]).2.1 (by decide)

/-- **C4 counterexample.**  `cmd_record_answer` accepts an out-of-enum
status (`"bogus"`) and confidence (`"maybe"`): the recording succeeds
(`updated = true`, so no error is raised) and the out-of-enum values
are written verbatim into the document. -/
theorem claimC4_counterexample :
    statusValues.contains "bogus".data = false ∧
    confidenceValues.contains "maybe".data = false ∧
    (recordAnswer "SEC-001".data "bogus".data "maybe".data "We do Y".data
      "2026-01-01".data [wDoc]).2 = true ∧
    parseField ((recordAnswer "SEC-001".data "bogus".data "maybe".data "We do Y".data
      "2026-01-01".data [wDoc]).1.headD []) statusF = "bogus".data ∧
    parseField ((recordAnswer "SEC-001".data "bogus".data "maybe".data "We do Y".data
      "2026-01-01".data [wDoc]).1.headD []) confidenceF = "maybe".data := by
  decide

theorem validateStep_len (pillar : Line) (acc : List Line × List Line) (e : Entry) :
    acc.1.length ≤ (validateStep pillar acc e).1.length := by
  simp only [validateStep]
  split
  · split
    · split
      · simp
      · simp
    · split
      · simp
      · simp
  · split
    · split
      · simp
      · simp
    · split
      · simp
      · simp

theorem validate_fold_len (pillar : Line) :
    ∀ (es : List Entry) (acc : List Line × List Line),
      acc.1.length ≤ (es.foldl (validateStep pillar) acc).1.length := by
  intro es
  induction es with
  | nil => intro acc; simp
  | cons e es ih =>
    intro acc
    rw [List.foldl_cons]
    exact le_trans (validateStep_len pillar acc e) (ih _)

theorem validateStep_invalid_status (pillar : Line) (acc : List Line × List Line)
    (e : Entry) (h1 : e.status ≠ []) (h2 : statusValues.contains e.status = false) :
    acc.1.length < (validateStep pillar acc e).1.length := by
  simp only [validateStep]
  have hcond : e.status ≠ [] ∧ ¬ statusValues.contains e.status = true :=
    ⟨h1, by simpa using h2⟩
  rw [if_pos hcond]
  split
  · split
    · simp
    · simp
  · split
    · simp
    · simp

/-- `cmd_validate` reports an error for every record whose status is
non-empty and outside the enumeration. -/
theorem validateDoc_flags_invalid {pillar : Line} {doc : Block} {e : Entry}
    (he : e ∈ parseQuestionsFromReport doc) (h1 : e.status ≠ [])
    (h2 : statusValues.contains e.status = false) :
    validateDoc pillar doc ≠ [] := by
  obtain ⟨s, t, hst⟩ := List.append_of_mem he
  unfold validateDoc
  rw [hst, List.foldl_append, List.foldl_cons]
  intro hnil
  have hlen := validate_fold_len pillar t
    (validateStep pillar (s.foldl (validateStep pillar) ([], [])) e)
  have hstep := validateStep_invalid_status pillar
    (s.foldl (validateStep pillar) ([], [])) e h1 h2
  rw [hnil] at hlen
  rw [List.length_nil] at hlen
  omega

/-- **C4 (amended).**  The answer-recording operation performs no enum
validation: any caller-supplied status and confidence strings are
accepted and written verbatim (stripped) into the record, and the
recording is never rejected on their account; out-of-enum values are
flagged only by the separate `validate` command. -/
theorem claimC4_no_validation :
    (∀ (st cf ans now : Line) (b : Block),
      (∃ l ∈ b, begins (statusF ++ [':']) l = true) →
      parseField (recordAnswerBlock st cf ans now b) statusF = pyStrip st) ∧
    (∀ (st cf ans now : Line) (b : Block),
      (∃ l ∈ b, begins (confidenceF ++ [':']) l = true) →
      parseField (recordAnswerBlock st cf ans now b) confidenceF = pyStrip cf) ∧
    (∀ (pillar : Line) (doc : Block) (e : Entry),
      e ∈ parseQuestionsFromReport doc → e.status ≠ [] →
      statusValues.contains e.status = false →
      validateDoc pillar doc ≠ []) := by
  refine ⟨?_, ?_, fun pillar doc e he h1 h2 => validateDoc_flags_invalid he h1 h2⟩
  · intro st cf ans now b hex
    obtain ⟨x, hx⟩ : ∃ x, b.find? (fun l => begins (statusF ++ [':']) l) = some x := by
      rcases hex with ⟨l, hl, hpl⟩
      exact Option.isSome_iff_exists.mp (List.find?_isSome.mpr ⟨l, hl, hpl⟩)
    unfold recordAnswerBlock
    have h1 := find?_replaceField_self (v := st) hx
    have h2 := find?_replaceField_eq (b := replaceField b statusF st)
      confidenceF cf (g := statusF) (by decide)
    rw [h1] at h2
    have h3 : ((replaceField (replaceField b statusF st) confidenceF cf).map
        (ansSubLine ans)).find? (fun l => begins (statusF ++ [':']) l)
        = some (statusF ++ ':' :: ' ' :: st) := by
      have hmap : (replaceField (replaceField b statusF st) confidenceF cf).map
          (ansSubLine ans)
          = (replaceField (replaceField b statusF st) confidenceF cf).map
            (lineRepl answerF ans) :=
        List.map_congr_left (fun a _ => ansSubLine_eq_lineRepl ans a)
      rw [hmap, find?_map_lineRepl_eq _ _ (by decide), h2]
    have h4 := find?_replaceField_eq (b := (replaceField (replaceField b statusF st)
      confidenceF cf).map (ansSubLine ans)) luF now (g := statusF) (by decide)
    rw [h3] at h4
    rw [parseField_of_find? h4, drop_canonical, pyStrip_cons_space]
  · intro st cf ans now b hex
    obtain ⟨x, hx⟩ : ∃ x, b.find? (fun l => begins (confidenceF ++ [':']) l) = some x := by
      rcases hex with ⟨l, hl, hpl⟩
      exact Option.isSome_iff_exists.mp (List.find?_isSome.mpr ⟨l, hl, hpl⟩)
    unfold recordAnswerBlock
    have h1 := find?_replaceField_eq (b := b) statusF st (g := confidenceF) (by decide)
    rw [hx] at h1
    have h2 := find?_replaceField_self (v := cf) h1
    have h3 : ((replaceField (replaceField b statusF st) confidenceF cf).map
        (ansSubLine ans)).find? (fun l => begins (confidenceF ++ [':']) l)
        = some (confidenceF ++ ':' :: ' ' :: cf) := by
      have hmap : (replaceField (replaceField b statusF st) confidenceF cf).map
          (ansSubLine ans)
          = (replaceField (replaceField b statusF st) confidenceF cf).map
            (lineRepl answerF ans) :=
        List.map_congr_left (fun a _ => ansSubLine_eq_lineRepl ans a)
      rw [hmap, find?_map_lineRepl_eq _ _ (by decide), h2]
    have h4 := find?_replaceField_eq (b := (replaceField (replaceField b statusF st)
      confidenceF cf).map (ansSubLine ans)) luF now (g := confidenceF) (by decide)
    rw [h3] at h4
    rw [parseField_of_find? h4, drop_canonical, pyStrip_cons_space]

/-- Witness for C4: the out-of-enum values land in the block verbatim,
and the validator flags the result. -/
theorem claimC4_no_validation_witness :
    parseField (recordAnswerBlock "bogus".data "maybe".data "x".data "t".data
      wBlockNoAns) statusF = pyStrip "bogus".data ∧
    parseField (recordAnswerBlock "bogus".data "maybe".data "x".data "t".data
      wBlockNoAns) confidenceF = pyStrip "maybe".data ∧
    validateDoc "security".data
      ((recordAnswer "SEC-001".data "bogus".data "maybe".data "x".data "t".data
        [wDoc]).1.headD []) ≠ [] :=
  ⟨claimC4_no_validation.1 "bogus".data "maybe".data "x".data "t".data wBlockNoAns
      (by decide),
   claimC4_no_validation.2.1 "bogus".data "maybe".data "x".data "t".data wBlockNoAns
      (by decide),
   claimC4_no_validation.2.2 "security".data _ ((parseQuestionsFromReport
      ((recordAnswer "SEC-001".data "bogus".data "maybe".data "x".data "t".data
        [wDoc]).1.headD [])).headD noEntry) (by decide) (by decide) (by decide)⟩

/-! ## Claim C8: identity resolution -/

theorem mem_insertByCreated {x y : Issue} : ∀ {l : List Issue},
    y ∈ insertByCreated x l ↔ y = x ∨ y ∈ l := by
  intro l
  induction l with
  | nil => simp [insertByCreated]
  | cons z zs ih =>
    simp only [insertByCreated]
    split
    · simp [or_comm, or_left_comm]
    · simp only [List.mem_cons, ih]
      tauto

theorem mem_sortByCreated {y : Issue} : ∀ {l : List Issue},
    y ∈ sortByCreated l ↔ y ∈ l := by
  intro l
  induction l with
  | nil => simp [sortByCreated]
  | cons x xs ih =>
    simp [sortByCreated, mem_insertByCreated, ih]

theorem getLastD_insertByCreated (x : Issue) : ∀ (l : List Issue) (d : Issue),
    (insertByCreated x l).getLastD d
      = if ∃ y ∈ l, x.created_at ≤ y.created_at then l.getLastD d else x := by
  intro l
  induction l with
  | nil => intro d; simp [insertByCreated]
  | cons z zs ih =>
    intro d
    simp only [insertByCreated]
    by_cases hz : x.created_at ≤ z.created_at
    · rw [if_pos hz, if_pos ⟨z, by simp, hz⟩, List.getLastD_cons, List.getLastD_cons,
        List.getLastD_cons]
    · rw [if_neg hz, List.getLastD_cons, ih z]
      by_cases hzs : ∃ y ∈ zs, x.created_at ≤ y.created_at
      · have hzzs : ∃ y ∈ z :: zs, x.created_at ≤ y.created_at := by
          rcases hzs with ⟨y, hy, hxy⟩
          exact ⟨y, by simp [hy], hxy⟩
        rw [if_pos hzs, if_pos hzzs, List.getLastD_cons]
      · have hzzs : ¬ ∃ y ∈ z :: zs, x.created_at ≤ y.created_at := by
          rintro ⟨y, hy, hxy⟩
          rcases List.mem_cons.mp hy with rfl | hy'
          · exact hz hxy
          · exact hzs ⟨y, hy', hxy⟩
        rw [if_neg hzs, if_neg hzzs]

/-- The last element of the stable ascending sort is a member with
maximal creation timestamp (Python's `sorted(...)[-1]`). -/
theorem sortByCreated_getLast_max : ∀ (l : List Issue), l ≠ [] →
    (sortByCreated l).getLastD noIssue ∈ l ∧
      ∀ j ∈ l, j.created_at ≤ ((sortByCreated l).getLastD noIssue).created_at := by
  intro l
  induction l with
  | nil => intro h; exact absurd rfl h
  | cons x xs ih =>
    intro _
    by_cases hxs : xs = []
    · subst hxs
      simp [sortByCreated, insertByCreated]
    · obtain ⟨hmem, hmax⟩ := ih hxs
      simp only [sortByCreated]
      rw [getLastD_insertByCreated]
      by_cases hex : ∃ y ∈ sortByCreated xs, x.created_at ≤ y.created_at
      · rw [if_pos hex]
        refine ⟨List.mem_cons_of_mem x hmem, ?_⟩
        intro j hj
        rcases List.mem_cons.mp hj with rfl | hj'
        · rcases hex with ⟨y, hy, hxy⟩
          exact le_trans hxy (hmax y (mem_sortByCreated.mp hy))
        · exact hmax j hj'
      · rw [if_neg hex]
        refine ⟨by simp, ?_⟩
        intro j hj
        rcases List.mem_cons.mp hj with rfl | hj'
        · exact le_refl _
        · have hnle : ¬ x.created_at ≤ j.created_at :=
            fun hc => hex ⟨j, mem_sortByCreated.mpr hj', hc⟩
          exact le_of_not_le hnle

/-- **C8.**  Identity resolution: an identifier with the full segment
count is returned unchanged whatever the snapshot; for a short
identifier, zero candidates (after the prefix/title/parent filters)
return the input unchanged, exactly one candidate returns that
entity's identifier, and several candidates return the identifier of a
candidate with the greatest creation timestamp. -/
theorem claimC8_resolution (shortId title parent : Line) (issues : List Issue) :
    (isFullId shortId = true →
      resolveFullId shortId title parent issues = shortId) ∧
    (isFullId shortId = false →
      (resolveCandidates shortId title parent issues = [] →
        resolveFullId shortId title parent issues = shortId) ∧
      (∀ i, resolveCandidates shortId title parent issues = [i] →
        resolveFullId shortId title parent issues = i.id) ∧
      (resolveCandidates shortId title parent issues ≠ [] →
        ∃ i ∈ resolveCandidates shortId title parent issues,
          resolveFullId shortId title parent issues = i.id ∧
          ∀ j ∈ resolveCandidates shortId title parent issues,
            j.created_at ≤ i.created_at)) := by
  constructor
  · intro h
    unfold resolveFullId
    rw [if_pos h]
  · intro h
    refine ⟨?_, ?_, ?_⟩
    · intro hc
      unfold resolveFullId
      rw [if_neg (by simp [h]), if_pos hc]
    · intro i hi
      unfold resolveFullId
      rw [if_neg (by simp [h]), hi, if_neg (by simp)]
      simp [sortByCreated, insertByCreated]
    · intro hne
      obtain ⟨hmem, hmax⟩ :=
        sortByCreated_getLast_max (resolveCandidates shortId title parent issues) hne
      refine ⟨(sortByCreated (resolveCandidates shortId title parent issues)).getLastD
        noIssue, hmem, ?_, hmax⟩
      unfold resolveFullId
      rw [if_neg (by simp [h]), if_neg hne]

/-- A concrete snapshot: two entities share the short prefix
`kanbus-test-1`, one is newer; one entity matches `kanbus-test-2`. -/
def wIssues : List Issue :=
  [⟨"kanbus-test-1-aaaa-bbbb-cccc".data, "T1".data, "P1".data, "2024-01-01".data⟩,
   ⟨"kanbus-test-1-aaaa-bbbb-dddd".data, "T1".data, "P1".data, "2024-02-01".data⟩,
   ⟨"kanbus-test-2-aaaa-bbbb-eeee".data, "T2".data, "P1".data, "2024-01-15".data⟩]

/-- Witness for C8: full id unchanged, unique match resolved, zero
matches unchanged, several matches resolved to a newest candidate. -/
theorem claimC8_resolution_witness :
    resolveFullId "kanbus-test-1-aaaa-bbbb-cccc".data [] [] wIssues
      = "kanbus-test-1-aaaa-bbbb-cccc".data ∧
    resolveFullId "kanbus-test-2".data [] [] wIssues
      = "kanbus-test-2-aaaa-bbbb-eeee".data ∧
    resolveFullId "kanbus-test-9".data [] [] wIssues = "kanbus-test-9".data ∧
    ∃ i ∈ resolveCandidates "kanbus-test-1".data [] [] wIssues,
      resolveFullId "kanbus-test-1".data [] [] wIssues = i.id ∧
      ∀ j ∈ resolveCandidates "kanbus-test-1".data [] [] wIssues,
        j.created_at ≤ i.created_at :=
  ⟨(claimC8_resolution "kanbus-test-1-aaaa-bbbb-cccc".data [] [] wIssues).1 (by decide),
   ((claimC8_resolution "kanbus-test-2".data [] [] wIssues).2 (by decide)).2.1
     ⟨"kanbus-test-2-aaaa-bbbb-eeee".data, "T2".data, "P1".data, "2024-01-15".data⟩
     (by decide),
   ((claimC8_resolution "kanbus-test-9".data [] [] wIssues).2 (by decide)).1 (by decide),
   ((claimC8_resolution "kanbus-test-1".data [] [] wIssues).2 (by decide)).2.2
     (by decide)⟩

/-! ## Claim C2: tracker sync failure handling -/

/-- A tracker on which every external call succeeds. -/
def pureEnv : SyncEnv := ⟨fun _ _ => none, fun _ _ => none⟩

theorem kanbusComment_benign {env : SyncEnv}
    (hc : ∀ i t, env.commentErr i t = none)
    (tr : List SyncCall) (i t : Line) :
    kanbusComment env tr i t = kanbusComment pureEnv tr i t := by
  simp only [kanbusComment, hc, pureEnv]

theorem kanbusUpdateStatus_benign {env : SyncEnv}
    (hu : ∀ i st m, env.updateErr i st = some m → containsSub noUpdatesMsg m = true)
    (tr : List SyncCall) (i st : Line) :
    kanbusUpdateStatus env tr i st = kanbusUpdateStatus pureEnv tr i st := by
  simp only [kanbusUpdateStatus, pureEnv]
  cases h : env.updateErr i st with
  | none => rfl
  | some m => simp only [hu i st m h, if_true]

theorem syncStatus_benign {env : SyncEnv}
    (hu : ∀ i st m, env.updateErr i st = some m → containsSub noUpdatesMsg m = true)
    (tid status : Line) (tr1 : List SyncCall) :
    (if status = answeredS then kanbusUpdateStatus env tr1 tid "closed".data
     else if status = needsHumanS then kanbusUpdateStatus env tr1 tid "blocked".data
     else (tr1, none))
    = (if status = answeredS then kanbusUpdateStatus pureEnv tr1 tid "closed".data
       else if status = needsHumanS then kanbusUpdateStatus pureEnv tr1 tid "blocked".data
       else (tr1, none)) := by
  by_cases h1 : status = answeredS
  · simp only [if_pos h1]
    exact kanbusUpdateStatus_benign hu tr1 tid _
  · simp only [if_neg h1]
    by_cases h2 : status = needsHumanS
    · simp only [if_pos h2]
      exact kanbusUpdateStatus_benign hu tr1 tid _
    · simp only [if_neg h2]

theorem syncEntryCalls_benign {env : SyncEnv}
    (hc : ∀ i t, env.commentErr i t = none)
    (hu : ∀ i st m, env.updateErr i st = some m → containsSub noUpdatesMsg m = true)
    (tid answer status : Line) (tr : List SyncCall) :
    syncEntryCalls env tid answer status tr = syncEntryCalls pureEnv tid answer status tr := by
  unfold syncEntryCalls
  by_cases ha : answer ≠ []
  · simp only [if_pos ha, kanbusComment, pureEnv, hc]
    exact syncStatus_benign hu tid status _
  · simp only [if_neg ha]
    exact syncStatus_benign hu tid status tr

theorem syncEntry_benign {env : SyncEnv}
    (hc : ∀ i t, env.commentErr i t = none)
    (hu : ∀ i st m, env.updateErr i st = some m → containsSub noUpdatesMsg m = true)
    (issues : List Issue) (tasks : List (Line × Line))
    (tr : List SyncCall) (e : Entry) :
    syncEntry env issues tasks tr e = syncEntry pureEnv issues tasks tr e := by
  unfold syncEntry
  cases hfind : (tasks.find? (fun p => p.1 == e.id)).map Prod.snd with
  | none => rfl
  | some taskId =>
    by_cases h : taskId = []
    · simp only [if_pos h]
    · simp only [if_neg h]
      exact syncEntryCalls_benign hc hu _ _ _ tr

theorem syncEntries_benign {env : SyncEnv}
    (hc : ∀ i t, env.commentErr i t = none)
    (hu : ∀ i st m, env.updateErr i st = some m → containsSub noUpdatesMsg m = true)
    (issues : List Issue) (tasks : List (Line × Line)) :
    ∀ (es : List Entry) (tr : List SyncCall),
      syncEntries env issues tasks tr es = syncEntries pureEnv issues tasks tr es := by
  intro es
  induction es with
  | nil => intro tr; rfl
  | cons e es ih =>
    intro tr
    unfold syncEntries
    rw [syncEntry_benign hc hu]
    rcases h : syncEntry pureEnv issues tasks tr e with ⟨tr1, err⟩
    cases err with
    | none => exact ih tr1
    | some m => rfl

theorem syncDocs_benign {env : SyncEnv}
    (hc : ∀ i t, env.commentErr i t = none)
    (hu : ∀ i st m, env.updateErr i st = some m → containsSub noUpdatesMsg m = true)
    (issues : List Issue) (tasks : List (Line × Line)) :
    ∀ (ds : List Block) (tr : List SyncCall),
      syncDocs env issues tasks tr ds = syncDocs pureEnv issues tasks tr ds := by
  intro ds
  induction ds with
  | nil => intro tr; rfl
  | cons d rest ih =>
    intro tr
    unfold syncDocs
    rw [syncEntries_benign hc hu]
    rcases h : syncEntries pureEnv issues tasks tr (parseQuestionsFromReport d) with ⟨tr1, err⟩
    cases err with
    | none => exact ih tr1
    | some m => rfl

theorem syncEpics_benign {env : SyncEnv}
    (hu : ∀ i st m, env.updateErr i st = some m → containsSub noUpdatesMsg m = true)
    (issues : List Issue) (docs : List (Line × Block)) :
    ∀ (eps : List (Line × Line)) (tr : List SyncCall),
      syncEpics env issues docs tr eps = syncEpics pureEnv issues docs tr eps := by
  intro eps
  induction eps with
  | nil => intro tr; rfl
  | cons p rest ih =>
    intro tr
    rcases p with ⟨pillar, epicId⟩
    simp only [syncEpics]
    cases hfind : (docs.find? (fun p => p.1 == pillar)).map Prod.snd with
    | none => exact ih tr
    | some doc =>
      dsimp only
      by_cases hall : ((parseQuestionsFromReport doc).all (fun e => e.status == answeredS)) = true
      · rw [if_pos hall, if_pos hall, kanbusUpdateStatus_benign hu]
        rcases h : kanbusUpdateStatus pureEnv tr (resolveFullId epicId [] [] issues) "closed".data
          with ⟨tr1, err⟩
        cases err with
        | none => exact ih tr1
        | some m => rfl
      · rw [if_neg hall, if_neg hall]
        exact ih tr

theorem kanbusComment_pure (tr : List SyncCall) (i t : Line) :
    kanbusComment pureEnv tr i t = (tr ++ [.comment i t], none) := rfl

theorem kanbusUpdateStatus_pure (tr : List SyncCall) (i st : Line) :
    kanbusUpdateStatus pureEnv tr i st = (tr ++ [.update i st], none) := rfl

theorem syncEntryCalls_pure (tid answer status : Line) (tr : List SyncCall) :
    (syncEntryCalls pureEnv tid answer status tr).2 = none := by
  unfold syncEntryCalls
  by_cases ha : answer ≠ []
  · simp only [if_pos ha, kanbusComment_pure]
    by_cases h1 : status = answeredS
    · simp only [if_pos h1, kanbusUpdateStatus_pure]
    · simp only [if_neg h1]
      by_cases h2 : status = needsHumanS
      · simp only [if_pos h2, kanbusUpdateStatus_pure]
      · simp only [if_neg h2]
  · simp only [if_neg ha]
    by_cases h1 : status = answeredS
    · simp only [if_pos h1, kanbusUpdateStatus_pure]
    · simp only [if_neg h1]
      by_cases h2 : status = needsHumanS
      · simp only [if_pos h2, kanbusUpdateStatus_pure]
      · simp only [if_neg h2]

theorem syncEntry_pure (issues : List Issue) (tasks : List (Line × Line))
    (tr : List SyncCall) (e : Entry) :
    (syncEntry pureEnv issues tasks tr e).2 = none := by
  unfold syncEntry
  cases hfind : (tasks.find? (fun p => p.1 == e.id)).map Prod.snd with
  | none => rfl
  | some taskId =>
    by_cases h : taskId = []
    · simp only [if_pos h]
    · simp only [if_neg h]
      exact syncEntryCalls_pure _ _ _ tr

theorem syncEntries_pure (issues : List Issue) (tasks : List (Line × Line)) :
    ∀ (es : List Entry) (tr : List SyncCall),
      (syncEntries pureEnv issues tasks tr es).2 = none := by
  intro es
  induction es with
  | nil => intro tr; rfl
  | cons e es ih =>
    intro tr
    unfold syncEntries
    rcases h : syncEntry pureEnv issues tasks tr e with ⟨tr1, err⟩
    have h2 := syncEntry_pure issues tasks tr e
    rw [h] at h2
    cases err with
    | none => exact ih tr1
    | some m => simp at h2

theorem syncDocs_pure (issues : List Issue) (tasks : List (Line × Line)) :
    ∀ (ds : List Block) (tr : List SyncCall),
      (syncDocs pureEnv issues tasks tr ds).2 = none := by
  intro ds
  induction ds with
  | nil => intro tr; rfl
  | cons d rest ih =>
    intro tr
    unfold syncDocs
    rcases h : syncEntries pureEnv issues tasks tr (parseQuestionsFromReport d) with ⟨tr1, err⟩
    have h2 := syncEntries_pure issues tasks (parseQuestionsFromReport d) tr
    rw [h] at h2
    cases err with
    | none => exact ih tr1
    | some m => simp at h2

theorem syncEpics_pure (issues : List Issue) (docs : List (Line × Block)) :
    ∀ (eps : List (Line × Line)) (tr : List SyncCall),
      (syncEpics pureEnv issues docs tr eps).2 = none := by
  intro eps
  induction eps with
  | nil => intro tr; rfl
  | cons p rest ih =>
    intro tr
    rcases p with ⟨pillar, epicId⟩
    simp only [syncEpics]
    cases hfind : (docs.find? (fun p => p.1 == pillar)).map Prod.snd with
    | none => exact ih tr
    | some doc =>
      dsimp only
      by_cases hall : ((parseQuestionsFromReport doc).all (fun e => e.status == answeredS)) = true
      · rw [if_pos hall, kanbusUpdateStatus_pure]
        exact ih _
      · rw [if_neg hall]
        exact ih tr

/-- A full task id (five hyphens), so resolution leaves it unchanged. -/
def wTaskId1 : Line := "kanbus-a-b-c-d-e1".data

def wTaskId2 : Line := "kanbus-a-b-c-d-e2".data

/-- A second record, `answered`, mapped to the second task. -/
def wBlockAns2 : Block :=
  ["## SEC-002: How do you scan?".data,
   "Question: How do you scan?".data,
   "Status: answered".data,
   "Confidence: high".data,
   "Answer: We do Z".data,
   "Evidence:".data,
   "Human Questions:".data,
   "Kanbus Task: kanbus-test-2".data,
   "Last Updated: 2020-01-01T00:00:00+00:00".data,
   "".data]

def wTasksC2 : List (Line × Line) :=
  [("SEC-001".data, wTaskId1), ("SEC-002".data, wTaskId2)]

def wDocsC2 : List (Line × Block) :=
  [("security".data, "# Security".data :: "".data :: wBlockAns ++ wBlockAns2)]

/-- A tracker whose comment call fails (with a message that is not the
forgiven one) on the first task only. -/
def envBoom : SyncEnv :=
  ⟨fun i _ => if i = wTaskId1 then some "boom".data else none, fun _ _ => none⟩

/-- Counterexample to C2 as stated: when the comment call for the FIRST
record fails, the run aborts with that failure and the second record is
never processed — on a fully successful tracker the same documents
produce the second record's comment and status update as well. -/
theorem claimC2_counterexample :
    (syncKanbus envBoom [] wTasksC2 [] wDocsC2
       = ([SyncCall.comment wTaskId1 "Answer:\nWe do X".data], some "boom".data))
    ∧ (syncKanbus pureEnv [] wTasksC2 [] wDocsC2).1
       = [SyncCall.comment wTaskId1 "Answer:\nWe do X".data,
          SyncCall.comment wTaskId2 "Answer:\nWe do Z".data,
          SyncCall.update wTaskId2 "closed".data] := by
  decide

/-- **C2.** (amended) The only tracker failure `cmd_sync_kanbus` survives
is a status-update failure whose message contains `"no updates requested"`
(swallowed inside `_kanbus_update_status`); any other failure aborts the
whole run.  Consequently, whenever every comment call succeeds and every
update failure is of the forgiven kind, the sync completes without error
and attempts exactly the calls of a failure-free run — every record of
every document and every epic is processed. -/
theorem claimC2_sync_failure (env : SyncEnv)
    (hc : ∀ i t, env.commentErr i t = none)
    (hu : ∀ i st m, env.updateErr i st = some m → containsSub noUpdatesMsg m = true)
    (issues : List Issue) (tasks epics : List (Line × Line)) (docs : List (Line × Block)) :
    syncKanbus env issues tasks epics docs
      = ((syncKanbus pureEnv issues tasks epics docs).1, none) := by
  unfold syncKanbus
  rw [syncDocs_benign hc hu]
  rcases h : syncDocs pureEnv issues tasks [] (docs.map Prod.snd) with ⟨tr1, err⟩
  have h2 := syncDocs_pure issues tasks (docs.map Prod.snd) []
  rw [h] at h2
  cases err with
  | some m => simp at h2
  | none =>
    dsimp only
    rw [syncEpics_benign hu]
    rcases h3 : syncEpics pureEnv issues docs tr1 epics with ⟨tr2, err2⟩
    have h4 := syncEpics_pure issues docs epics tr1
    rw [h3] at h4
    cases err2 with
    | some m => simp at h4
    | none => rfl

/-- A tracker whose update calls always fail with the forgiven
`no updates requested` message and whose comment calls succeed. -/
def envNoUpd : SyncEnv :=
  ⟨fun _ _ => none, fun _ _ => some "Error: no updates requested".data⟩

theorem claimC2_sync_failure_witness :
    syncKanbus envNoUpd [] wTasksC2 [] wDocsC2
      = ((syncKanbus pureEnv [] wTasksC2 [] wDocsC2).1, none) :=
  claimC2_sync_failure envNoUpd (fun _ _ => rfl)
    (fun _ _ m h => by
      injection h with h1
      rw [← h1]
      decide)
    [] wTasksC2 [] wDocsC2

end WAI
